import Mathlib

set_option linter.unusedVariables false
set_option maxRecDepth 8192

/-! Shallow embedding of the Nintendont remote-memory client in
src/GameCubeClient.py.  Python machine integers become Nat/Int,
`bytes` values become `List Nat`, `struct.pack`/`struct.unpack`
failures become `Option`, and Python exceptions become `Except GCError`.
The network is modelled by an oracle `net : Nat → NetResult` giving the
bytes delivered by the peer for the k-th round trip, and the client
object's mutable fields become an explicit state record that every
method threads through. -/

/-- Python exceptions raised by the client, collapsed to constructors:
the NintendontException variants, struct.error, ValueError,
AssertionError and IndexError. -/
inductive GCError where
  | notConnected
  | addressNotSet
  | openFailed
  | timeout
  | reset
  | connectionClosed
  | tooManyAddresses
  | commandTooLong
  | structError
  | valueError
  | assertionError
  | indexError
  | invalidAddress
deriving DecidableEq, Repr

deriving instance DecidableEq for Except

/-- struct.pack of format ">B": one unsigned byte, error when out of range. -/
def pack8 (n : Nat) : Option (List Nat) :=
  if n ≤ 255 then some [n] else none

/-- struct.pack of format ">H": big-endian 16-bit unsigned, error when out of range. -/
def pack16 (n : Int) : Option (List Nat) :=
  if 0 ≤ n ∧ n ≤ 65535 then some [n.toNat / 256, n.toNat % 256] else none

/-- struct.pack of format ">I": big-endian 32-bit unsigned, error when out of range. -/
def pack32 (n : Nat) : Option (List Nat) :=
  if n < 4294967296 then
    some [n / 16777216 % 256, n / 65536 % 256, n / 256 % 256, n % 256]
  else none

/-- Big-endian 32-bit word assembled from four bytes. -/
def be32 (b0 b1 b2 b3 : Nat) : Nat :=
  ((b0 * 256 + b1) * 256 + b2) * 256 + b3

/-- struct.unpack of format ">IIII": requires exactly sixteen bytes and
yields four big-endian 32-bit words. -/
def unpackIIII (bs : List Nat) : Option (Nat × Nat × Nat × Nat) :=
  match bs with
  | [a0, a1, a2, a3, b0, b1, b2, b3, c0, c1, c2, c3, d0, d1, d2, d3] =>
    some (be32 a0 a1 a2 a3, be32 b0 b1 b2 b3, be32 c0 c1 c2 c3, be32 d0 d1 d2 d3)
  | _ => none

/-- NintendontMemoryOperationType.READ_COMMANDS. -/
def READ_COMMANDS : Nat := 0

/-- NintendontMemoryOperationType.REQUEST_VERSION. -/
def REQUEST_VERSION : Nat := 1

/-- NintendontOperationHeader.HAS_READ. -/
def HAS_READ : Nat := 0x80

/-- NintendontOperationHeader.HAS_WRITE. -/
def HAS_WRITE : Nat := 0x40

/-- NintendontOperationHeader.IS_WORD. -/
def IS_WORD : Nat := 0x20

/-- NintendontOperationHeader.HAS_OFFSET. -/
def HAS_OFFSET : Nat := 0x10

/-- NintendontOperationHeader.ADDRESS_INDEX_MASK. -/
def ADDRESS_INDEX_MASK : Nat := 0xF

/-- NintendontOperationHeader.make: validates the address-table index and
packs the flag bits into one byte value. -/
def NintendontOperationHeader.make (read write is_word indirect : Bool)
    (address_index : Int) : Except GCError Nat :=
  if address_index > 15 then .error .valueError
  else if address_index < 0 then .error .valueError
  else
    let h0 := address_index.toNat
    let h1 := if read then h0 ||| HAS_READ else h0
    let h2 := if write then h1 ||| HAS_WRITE else h1
    let h3 := if is_word then h2 ||| IS_WORD else h2
    let h4 := if indirect then h3 ||| HAS_OFFSET else h3
    .ok h4

/-- NintendontOperation: header byte, size, optional 16-bit indirect offset,
optional write payload. -/
structure NintendontOperation where
  header : Nat
  size : Nat
  indirect_offset : Option Int
  data : Option (List Nat)
deriving DecidableEq, Repr

/-- NintendontOperation.make_read. -/
def NintendontOperation.make_read (address_index : Int) (size : Nat)
    (indirect_offset : Option Int) : Except GCError NintendontOperation := do
  let h ← NintendontOperationHeader.make true false false indirect_offset.isSome address_index
  pure ⟨h, size, indirect_offset, none⟩

/-- NintendontOperation.make_write. -/
def NintendontOperation.make_write (read : Bool) (address_index : Int)
    (data : List Nat) (indirect_offset : Option Int) : Except GCError NintendontOperation := do
  let h ← NintendontOperationHeader.make read true false indirect_offset.isSome address_index
  pure ⟨h, data.length, indirect_offset, some data⟩

/-- NintendontOperation.is_read: tests the HAS_READ flag of the header. -/
def NintendontOperation.is_read (op : NintendontOperation) : Bool :=
  op.header &&& HAS_READ = HAS_READ

/-- NintendontOperation.to_bytes: struct.pack(">BB", header, size), followed
by struct.pack(">H", indirect_offset) when the offset is present, followed by
the payload bytes for writes. -/
def NintendontOperation.to_bytes (op : NintendontOperation) : Option (List Nat) := do
  let h ← pack8 op.header
  let s ← pack8 op.size
  let base ←
    match op.indirect_offset with
    | none => pure (h ++ s)
    | some off => do
      let o ← pack16 off
      pure (h ++ s ++ o)
  match op.data with
  | none => pure base
  | some d => pure (base ++ d)

/-- NintendontMetaInfo: the four negotiated limits from the handshake. -/
structure NintendontMetaInfo where
  protocol_version : Nat
  max_input_bytes : Nat
  max_output_bytes : Nat
  max_addresses : Nat
deriving DecidableEq, Repr

/-- The mutable fields of a NintendontClient object (the asyncio lock and
the logger carry no protocol state and are omitted). -/
structure ClientState where
  address : Option String
  streams : Option Unit
  meta_info : Option NintendontMetaInfo
deriving DecidableEq, Repr

/-- NintendontClient.__init__: address, streams and meta_info all start None. -/
def NintendontClient.init : ClientState :=
  ⟨none, none, none⟩

/-- NintendontClient.is_connected: `self.streams is not None`. -/
def NintendontClient.is_connected (c : ClientState) : Bool :=
  c.streams.isSome

/-- NintendontClient.disconnect: when a stream is open, close it and clear
both streams and meta_info; otherwise do nothing. -/
def NintendontClient.disconnect (c : ClientState) : ClientState :=
  match c.streams with
  | some _ => { c with streams := none, meta_info := none }
  | none => c

/-- NintendontClient.set_address: an address change while connected first
disconnects, then the new address is recorded. -/
def NintendontClient.set_address (c : ClientState) (new_address : Option String) : ClientState :=
  if new_address ≠ c.address ∧ NintendontClient.is_connected c then
    { NintendontClient.disconnect c with address := new_address }
  else
    { c with address := new_address }

/-- What the peer delivers for one round trip: bytes, a timeout, or a
connection reset. -/
inductive NetResult where
  | ok (raw : List Nat)
  | timeout
  | reset
deriving DecidableEq, Repr

/-- One client run: the object state plus ghost observation traces — the
index of the next round trip, the raw frames written to the socket, and the
(addresses, operations) argument of every __request_operations call. -/
structure RunState where
  client : ClientState
  reqIdx : Nat
  sent : List (List Nat)
  requests : List (List Nat × List NintendontOperation)
deriving DecidableEq, Repr

/-- NintendontClient.__make_request: fail when not connected; otherwise
write the frame, then read at most 1024 response bytes.  A timeout, a
connection reset, or an empty read disconnects and raises. -/
def makeRequest (net : Nat → NetResult) (rs : RunState) (data : List Nat) :
    Except GCError (List Nat) × RunState :=
  match rs.client.streams with
  | none => (.error .notConnected, rs)
  | some _ =>
    let rs1 : RunState := { rs with sent := rs.sent ++ [data], reqIdx := rs.reqIdx + 1 }
    match net rs.reqIdx with
    | .timeout => (.error .timeout, { rs1 with client := NintendontClient.disconnect rs1.client })
    | .reset => (.error .reset, { rs1 with client := NintendontClient.disconnect rs1.client })
    | .ok raw =>
      let response := raw.take 1024
      if response = [] then
        (.error .connectionClosed, { rs1 with client := NintendontClient.disconnect rs1.client })
      else
        (.ok response, rs1)

/-- Byte count of the success bitmask: Python's `(len(ops) - 1) // 8 + 1`
with floor division, which is 0 for an empty batch and `(n - 1) / 8 + 1`
for n ≥ 1. -/
def maskLen : Nat → Nat
  | 0 => 0
  | n + 1 => n / 8 + 1

/-- Reads bit i of the success bitmask: `success_bytes[i // 8] & (1 << (i % 8))`,
false when the byte index is out of range (where Python raises IndexError,
handled separately in the decoder). -/
def bitTestList (sb : List Nat) (i : Nat) : Bool :=
  match sb[i / 8]? with
  | some b => (b &&& (1 <<< (i % 8))) != 0
  | none => false

/-- The decode loop of NintendontClient.__request_operations: walk the
operations with running operation index i and payload cursor; a set bit on a
read consumes exactly `size` payload bytes (asserting the slice is full
length), a set bit on a write appends the empty marker, a cleared bit
appends None.  An out-of-range bitmask byte is Python's IndexError, a short
slice is the AssertionError. -/
def decodeGo (sb response : List Nat) :
    List NintendontOperation → Nat → Nat → Except GCError (List (Option (List Nat)))
  | [], _, _ => .ok []
  | op :: rest, i, cur =>
    match sb[i / 8]? with
    | none => .error .indexError
    | some b =>
      if (b &&& (1 <<< (i % 8))) != 0 then
        if op.is_read then
          let result := (response.drop cur).take op.size
          if result.length = op.size then
            match decodeGo sb response rest (i + 1) (cur + op.size) with
            | .error e => .error e
            | .ok rs => .ok (some result :: rs)
          else .error .assertionError
        else
          match decodeGo sb response rest (i + 1) cur with
          | .error e => .error e
          | .ok rs => .ok (some [] :: rs)
      else
        match decodeGo sb response rest (i + 1) cur with
        | .error e => .error e
        | .ok rs => .ok (none :: rs)

/-- Decoding a response for a batch of operations: the bitmask is the first
`maskLen` bytes and the payload cursor starts right after it. -/
def decodeResults (memory_operations : List NintendontOperation) (response : List Nat) :
    Except GCError (List (Option (List Nat))) :=
  let ml := maskLen memory_operations.length
  decodeGo (response.take ml) response memory_operations 0 ml

/-- The address table: struct.pack(">I", address) for each address, concatenated. -/
def packAddresses : List Nat → Option (List Nat)
  | [] => some []
  | a :: rest => do
    let x ← pack32 a
    let xs ← packAddresses rest
    pure (x ++ xs)

/-- The operation section: operation.to_bytes() for each operation, concatenated. -/
def packOperations : List NintendontOperation → Option (List Nat)
  | [] => some []
  | op :: rest => do
    let x ← op.to_bytes
    let xs ← packOperations rest
    pure (x ++ xs)

/-- The request frame of NintendontClient.__request_operations:
struct.pack(">BBBB", READ_COMMANDS, len(ops), len(addresses), True) followed
by the address table and the serialized operations. -/
def buildFrame (addresses : List Nat) (memory_operations : List NintendontOperation) :
    Option (List Nat) := do
  let countOps ← pack8 memory_operations.length
  let countAddrs ← pack8 addresses.length
  let addrBytes ← packAddresses addresses
  let opBytes ← packOperations memory_operations
  pure ([READ_COMMANDS] ++ countOps ++ countAddrs ++ [1] ++ addrBytes ++ opBytes)

/-- NintendontClient.__request_operations: check connection and the
negotiated address limit, build the frame, check the negotiated input-size
limit, perform the round trip and decode the response.  The requests trace
records the call's arguments. -/
def requestOperationsCore (net : Nat → NetResult) (rs : RunState)
    (addresses : List Nat) (memory_operations : List NintendontOperation) :
    Except GCError (List (Option (List Nat))) × RunState :=
  match rs.client.meta_info with
  | none => (.error .notConnected, rs)
  | some meta =>
    if addresses.length > meta.max_addresses then (.error .tooManyAddresses, rs)
    else
      match buildFrame addresses memory_operations with
      | none => (.error .structError, rs)
      | some data =>
        if data.length > meta.max_input_bytes then (.error .commandTooLong, rs)
        else
          match makeRequest net rs data with
          | (.error e, rs1) => (.error e, rs1)
          | (.ok response, rs1) =>
            match decodeResults memory_operations response with
            | .error e => (.error e, rs1)
            | .ok results => (.ok results, rs1)

/-- NintendontClient.__request_operations with the ghost requests trace
recording the call's arguments. -/
def requestOperations (net : Nat → NetResult) (rs : RunState)
    (addresses : List Nat) (memory_operations : List NintendontOperation) :
    Except GCError (List (Option (List Nat))) × RunState :=
  requestOperationsCore net
    { rs with requests := rs.requests ++ [(addresses, memory_operations)] }
    addresses memory_operations

/-- NintendontClient.connect: fail when no address is set; open the
transport (`openOk` says whether asyncio.open_connection succeeds), then
perform the REQUEST_VERSION handshake and unpack the four negotiated
limits; any handshake failure disconnects and re-raises. -/
def NintendontClient.connect (net : Nat → NetResult) (openOk : Bool) (rs : RunState) :
    Except GCError Unit × RunState :=
  match rs.client.address with
  | none => (.error .addressNotSet, rs)
  | some _ =>
    if openOk then
      let rs1 : RunState := { rs with client := { rs.client with streams := some () } }
      match makeRequest net rs1 [REQUEST_VERSION, 0, 0, 1] with
      | (.error e, rs2) => (.error e, { rs2 with client := NintendontClient.disconnect rs2.client })
      | (.ok result, rs2) =>
        match unpackIIII result with
        | none => (.error .structError, { rs2 with client := NintendontClient.disconnect rs2.client })
        | some (v, mi, mo, ma) =>
          (.ok (), { rs2 with client := { rs2.client with meta_info := some ⟨v, mi, mo, ma⟩ } })
    else (.error .openFailed, rs)

/-- NintendontClient.CHUNK_SIZE. -/
def CHUNK_SIZE : Nat := 80

/-- The chunk loop of NintendontClient.read_pointer: for i in
range(0, byte_count, CHUNK_SIZE), issue one single-operation read of
min(byte_count - i, CHUNK_SIZE) bytes at indirect offset `offset + i`;
a None chunk returns None, otherwise the chunks are concatenated. -/
def readPointerLoop (net : Nat → NetResult) (pointer : Nat) (offset : Int)
    (byte_count : Nat) (i : Nat) (acc : List (List Nat)) (rs : RunState) :
    Except GCError (Option (List Nat)) × RunState :=
  if h : i < byte_count then
    match NintendontOperation.make_read 0 (min (byte_count - i) CHUNK_SIZE) (some (offset + (i : Int))) with
    | .error e => (.error e, rs)
    | .ok op =>
      match requestOperations net rs [pointer] [op] with
      | (.error e, rs1) => (.error e, rs1)
      | (.ok results, rs1) =>
        match results.head? with
        | none => (.error .indexError, rs1)
        | some none => (.ok none, rs1)
        | some (some chunk) =>
          readPointerLoop net pointer offset byte_count (i + CHUNK_SIZE) (acc ++ [chunk]) rs1
  else (.ok (some acc.flatten), rs)
termination_by byte_count - i
decreasing_by simp [CHUNK_SIZE]; omega

/-- NintendontClient.read_pointer: a zero-byte read is still issued as one
zero-size operation; otherwise the chunk loop runs from i = 0. -/
def NintendontClient.read_pointer (net : Nat → NetResult) (rs : RunState)
    (pointer : Nat) (offset : Int) (byte_count : Nat) :
    Except GCError (Option (List Nat)) × RunState :=
  if byte_count = 0 then
    match NintendontOperation.make_read 0 0 (some offset) with
    | .error e => (.error e, rs)
    | .ok op =>
      match requestOperations net rs [pointer] [op] with
      | (.error e, rs1) => (.error e, rs1)
      | (.ok results, rs1) =>
        match results.head? with
        | none => (.error .indexError, rs1)
        | some r => (.ok r, rs1)
  else readPointerLoop net pointer offset byte_count 0 [] rs

/-- The chunk loop of NintendontClient.read_address: for i in
range(0, bytes_to_read, CHUNK_SIZE), issue one single-operation read of
min(bytes_to_read - i, CHUNK_SIZE) bytes at base address `address + i`;
a None chunk raises the invalid-address NintendontException, otherwise the
chunks are concatenated. -/
def readAddressLoop (net : Nat → NetResult) (address : Nat)
    (bytes_to_read : Nat) (i : Nat) (acc : List (List Nat)) (rs : RunState) :
    Except GCError (List Nat) × RunState :=
  if h : i < bytes_to_read then
    match NintendontOperation.make_read 0 (min (bytes_to_read - i) CHUNK_SIZE) none with
    | .error e => (.error e, rs)
    | .ok op =>
      match requestOperations net rs [address + i] [op] with
      | (.error e, rs1) => (.error e, rs1)
      | (.ok results, rs1) =>
        match results.head? with
        | none => (.error .indexError, rs1)
        | some none => (.error .invalidAddress, rs1)
        | some (some chunk) =>
          readAddressLoop net address bytes_to_read (i + CHUNK_SIZE) (acc ++ [chunk]) rs1
  else (.ok acc.flatten, rs)
termination_by bytes_to_read - i
decreasing_by simp [CHUNK_SIZE]; omega

/-- NintendontClient.read_address: a zero-byte read is still issued as one
zero-size operation and an unreadable result raises; otherwise the chunk
loop runs from i = 0. -/
def NintendontClient.read_address (net : Nat → NetResult) (rs : RunState)
    (address : Nat) (bytes_to_read : Nat) :
    Except GCError (List Nat) × RunState :=
  if bytes_to_read = 0 then
    match NintendontOperation.make_read 0 0 none with
    | .error e => (.error e, rs)
    | .ok op =>
      match requestOperations net rs [address] [op] with
      | (.error e, rs1) => (.error e, rs1)
      | (.ok results, rs1) =>
        match results.head? with
        | none => (.error .indexError, rs1)
        | some none => (.error .invalidAddress, rs1)
        | some (some r) => (.ok r, rs1)
  else readAddressLoop net address bytes_to_read 0 [] rs

/-- The chunk loop of NintendontClient.write_pointer: for i in
range(0, len(data), CHUNK_SIZE), issue one single-operation write of
data[i : i + CHUNK_SIZE] at indirect offset `offset + i`; the per-chunk
result is ignored. -/
def writePointerLoop (net : Nat → NetResult) (pointer : Nat) (offset : Int)
    (data : List Nat) (i : Nat) (rs : RunState) :
    Except GCError Unit × RunState :=
  if h : i < data.length then
    match NintendontOperation.make_write false 0 ((data.drop i).take CHUNK_SIZE) (some (offset + (i : Int))) with
    | .error e => (.error e, rs)
    | .ok op =>
      match requestOperations net rs [pointer] [op] with
      | (.error e, rs1) => (.error e, rs1)
      | (.ok _, rs1) => writePointerLoop net pointer offset data (i + CHUNK_SIZE) rs1
  else (.ok (), rs)
termination_by data.length - i
decreasing_by simp [CHUNK_SIZE]; omega

/-- NintendontClient.write_pointer: empty data is still issued as one
zero-size write; otherwise the chunk loop runs from i = 0. -/
def NintendontClient.write_pointer (net : Nat → NetResult) (rs : RunState)
    (pointer : Nat) (offset : Int) (data : List Nat) :
    Except GCError Unit × RunState :=
  if data = [] then
    match NintendontOperation.make_write false 0 [] (some offset) with
    | .error e => (.error e, rs)
    | .ok op =>
      match requestOperations net rs [pointer] [op] with
      | (.error e, rs1) => (.error e, rs1)
      | (.ok _, rs1) => (.ok (), rs1)
  else writePointerLoop net pointer offset data 0 rs

/-- The chunk loop of NintendontClient.write_address: for i in
range(0, len(data), CHUNK_SIZE), issue one single-operation write of
data[i : i + CHUNK_SIZE] at base address `address + i`; the per-chunk
result is ignored. -/
def writeAddressLoop (net : Nat → NetResult) (address : Nat)
    (data : List Nat) (i : Nat) (rs : RunState) :
    Except GCError Unit × RunState :=
  if h : i < data.length then
    match NintendontOperation.make_write false 0 ((data.drop i).take CHUNK_SIZE) none with
    | .error e => (.error e, rs)
    | .ok op =>
      match requestOperations net rs [address + i] [op] with
      | (.error e, rs1) => (.error e, rs1)
      | (.ok _, rs1) => writeAddressLoop net address data (i + CHUNK_SIZE) rs1
  else (.ok (), rs)
termination_by data.length - i
decreasing_by simp [CHUNK_SIZE]; omega

/-- NintendontClient.write_address: empty data is still issued as one
zero-size write; otherwise the chunk loop runs from i = 0. -/
def NintendontClient.write_address (net : Nat → NetResult) (rs : RunState)
    (address : Nat) (data : List Nat) :
    Except GCError Unit × RunState :=
  if data = [] then
    match NintendontOperation.make_write false 0 [] none with
    | .error e => (.error e, rs)
    | .ok op =>
      match requestOperations net rs [address] [op] with
      | (.error e, rs1) => (.error e, rs1)
      | (.ok _, rs1) => (.ok (), rs1)
  else writeAddressLoop net address data 0 rs

/-- The connection invariant of the claims: a session exists exactly when
negotiated limits exist. -/
def connInv (c : ClientState) : Prop :=
  c.streams.isSome = c.meta_info.isSome

/-- A client state that is connected with the standard negotiated limits of
the handshake scenario (protocol 1, 800/800 byte limits, 16 addresses). -/
def stdMeta : NintendontMetaInfo :=
  ⟨1, 800, 800, 16⟩

/-- Connectedness with the standard limits, used as the precondition of the
chunking theorems. -/
def connectedStd (c : ClientState) : Prop :=
  c.streams = some () ∧ c.meta_info = some stdMeta

/-- The response of one single-read round trip reports success and carries
a full `s`-byte payload: nonempty after the 1024-byte cap, bit 0 of the
bitmask set, and at least 1 + s bytes delivered. -/
def chunkSuccess (raw : List Nat) (s : Nat) : Prop :=
  raw.take 1024 ≠ [] ∧ ((raw.take 1024).headI &&& 1) ≠ 0 ∧ 1 + s ≤ (raw.take 1024).length

/-- The response of one single-operation round trip reports the operation
unreadable: nonempty after the 1024-byte cap with bit 0 of the bitmask clear. -/
def chunkUnreadable (raw : List Nat) : Prop :=
  raw.take 1024 ≠ [] ∧ ((raw.take 1024).headI &&& 1) = 0

/-- The chunk trace write_pointer is expected to produce from position i on:
one single-write request per CHUNK_SIZE slice of the data. -/
def writeChunks (pointer : Nat) (offset : Int) (data : List Nat) (i : Nat) :
    List (List Nat × List NintendontOperation) :=
  if h : i < data.length then
    ([pointer],
      [⟨HAS_WRITE ||| HAS_OFFSET, ((data.drop i).take CHUNK_SIZE).length,
        some (offset + (i : Int)), some ((data.drop i).take CHUNK_SIZE)⟩])
      :: writeChunks pointer offset data (i + CHUNK_SIZE)
  else []
termination_by data.length - i
decreasing_by simp [CHUNK_SIZE]; omega

/-- The well-formedness every request issued through the public interface
should enjoy: one address-table entry, one operation, address index 0 in the
header, size at most CHUNK_SIZE, and serialization succeeding whenever the
indirect offset (if any) fits in 16 bits. -/
def goodRequest (r : List Nat × List NintendontOperation) : Prop :=
  r.1.length = 1 ∧ r.2.length = 1 ∧
    ∀ op ∈ r.2,
      op.header &&& ADDRESS_INDEX_MASK = 0 ∧
      op.size ≤ CHUNK_SIZE ∧
      (op.indirect_offset = none → op.to_bytes.isSome) ∧
      (∀ o, op.indirect_offset = some o → 0 ≤ o → o ≤ 65535 → op.to_bytes.isSome)

/-- Payload bytes the decoder will consume for a batch, from operation
index i on: the declared size of every operation whose bitmask bit is set
and whose header has the read flag. -/
def consumedBytes (sb : List Nat) : List NintendontOperation → Nat → Nat
  | [], _ => 0
  | op :: rest, i =>
    (if bitTestList sb i && op.is_read then op.size else 0) + consumedBytes sb rest (i + 1)

/-- Total response bytes a batch needs: the bitmask bytes plus the payload
bytes of the successful reads. -/
def requiredBytes (memory_operations : List NintendontOperation) (response : List Nat) : Nat :=
  maskLen memory_operations.length +
    consumedBytes (response.take (maskLen memory_operations.length)) memory_operations 0

/-! Decode lemmas. -/

theorem decodeGo_length (sb response : List Nat) :
    ∀ ops i cur rs, decodeGo sb response ops i cur = .ok rs → rs.length = ops.length := by
  intro ops
  induction ops with
  | nil =>
    intro i cur rs h
    cases h
    rfl
  | cons op rest ih =>
    intro i cur rs h
    simp only [decodeGo] at h
    split at h
    · exact absurd h (by simp)
    · split at h
      · split at h
        · split at h
          · split at h
            · exact absurd h (by simp)
            · cases h
              simpa using ih _ _ _ (by assumption)
          · exact absurd h (by simp)
        · split at h
          · exact absurd h (by simp)
          · cases h
            simpa using ih _ _ _ (by assumption)
      · split at h
        · exact absurd h (by simp)
        · cases h
          simpa using ih _ _ _ (by assumption)

theorem decodeGo_isSome (sb response : List Nat) :
    ∀ ops i cur rs, decodeGo sb response ops i cur = .ok rs →
      ∀ k op r, ops[k]? = some op → rs[k]? = some r →
        r.isSome = bitTestList sb (i + k) := by
  intro ops
  induction ops with
  | nil =>
    intro i cur rs h k op r hop hr
    simp at hop
  | cons op rest ih =>
    intro i cur rs h k opk r hop hr
    simp only [decodeGo] at h
    split at h
    · exact absurd h (by simp)
    · rename_i b hsb
      split at h
      · rename_i hbit
        split at h
        · split at h
          · split at h
            · exact absurd h (by simp)
            · cases h
              cases k with
              | zero =>
                simp only [List.getElem?_cons_zero, Option.some_inj] at hr
                subst hr
                simp [bitTestList, hsb, hbit]
              | succ k1 =>
                have : i + (k1 + 1) = (i + 1) + k1 := by omega
                rw [this]
                exact ih _ _ _ (by assumption) k1 opk r (by simpa using hop) (by simpa using hr)
          · exact absurd h (by simp)
        · split at h
          · exact absurd h (by simp)
          · cases h
            cases k with
            | zero =>
              simp only [List.getElem?_cons_zero, Option.some_inj] at hr
              subst hr
              simp [bitTestList, hsb, hbit]
            | succ k1 =>
              have : i + (k1 + 1) = (i + 1) + k1 := by omega
              rw [this]
              exact ih _ _ _ (by assumption) k1 opk r (by simpa using hop) (by simpa using hr)
      · rename_i hbit
        split at h
        · exact absurd h (by simp)
        · cases h
          cases k with
          | zero =>
            simp only [List.getElem?_cons_zero, Option.some_inj] at hr
            subst hr
            have hb0 : b &&& 1 <<< (i % 8) = 0 := by simpa using hbit
            simp [bitTestList, hsb, hb0]
          | succ k1 =>
            have : i + (k1 + 1) = (i + 1) + k1 := by omega
            rw [this]
            exact ih _ _ _ (by assumption) k1 opk r (by simpa using hop) (by simpa using hr)

theorem decodeGo_read_length (sb response : List Nat) :
    ∀ ops i cur rs, decodeGo sb response ops i cur = .ok rs →
      ∀ (k : Nat) (op : NintendontOperation) (l : List Nat),
        ops[k]? = some op → rs[k]? = some (some l) → op.is_read = true →
        l.length = op.size := by
  intro ops
  induction ops with
  | nil =>
    intro i cur rs h k op l hop hr hread
    simp at hop
  | cons op rest ih =>
    intro i cur rs h k opk l hop hr hread
    simp only [decodeGo] at h
    split at h
    · exact absurd h (by simp)
    · split at h
      · split at h
        · split at h
          · split at h
            · exact absurd h (by simp)
            · cases h
              cases k with
              | zero =>
                simp only [List.getElem?_cons_zero, Option.some_inj] at hr hop
                subst hop
                rw [← hr]
                assumption
              | succ k1 =>
                exact ih _ _ _ (by assumption) k1 opk l (by simpa using hop) (by simpa using hr) hread
          · exact absurd h (by simp)
        · rename_i hnotread
          split at h
          · exact absurd h (by simp)
          · cases h
            cases k with
            | zero =>
              simp only [List.getElem?_cons_zero, Option.some_inj] at hr hop
              subst hop
              exact absurd hread hnotread
            | succ k1 =>
              exact ih _ _ _ (by assumption) k1 opk l (by simpa using hop) (by simpa using hr) hread
      · split at h
        · exact absurd h (by simp)
        · cases h
          cases k with
          | zero => simp at hr
          | succ k1 =>
            exact ih _ _ _ (by assumption) k1 opk l (by simpa using hop) (by simpa using hr) hread

theorem decodeGo_consumed (sb response : List Nat) :
    ∀ ops i cur rs, decodeGo sb response ops i cur = .ok rs →
      consumedBytes sb ops i = 0 ∨ cur + consumedBytes sb ops i ≤ response.length := by
  intro ops
  induction ops with
  | nil =>
    intro i cur rs h
    simp [consumedBytes]
  | cons op rest ih =>
    intro i cur rs h
    simp only [decodeGo] at h
    split at h
    · exact absurd h (by simp)
    · rename_i b hsb
      split at h
      · rename_i hbit
        split at h
        · rename_i hread
          split at h
          · rename_i hlen
            split at h
            · exact absurd h (by simp)
            · rename_i rs1 hrec
              have hb : bitTestList sb i = true := by simp [bitTestList, hsb]; simpa using hbit
              have hmin : min op.size (response.length - cur) = op.size := by
                simpa using hlen
              have := ih (i + 1) (cur + op.size) rs1 hrec
              simp only [consumedBytes, hb, hread, Bool.and_self, if_pos, Bool.true_and, if_true]
              omega
          · exact absurd h (by simp)
        · rename_i hnotread
          split at h
          · exact absurd h (by simp)
          · rename_i rs1 hrec
            have := ih (i + 1) cur rs1 hrec
            have hnr : op.is_read = false := by simpa using hnotread
            simp only [consumedBytes, hnr, Bool.and_false, if_neg, Bool.false_eq_true,
              not_false_iff, if_false]
            omega
      · rename_i hbit
        split at h
        · exact absurd h (by simp)
        · rename_i rs1 hrec
          have := ih (i + 1) cur rs1 hrec
          have hb : bitTestList sb i = false := by
            have hb0 : b &&& 1 <<< (i % 8) = 0 := by simpa using hbit
            simp [bitTestList, hsb, hb0]
          simp only [consumedBytes, hb, Bool.false_and, Bool.false_eq_true, not_false_iff,
            if_neg, if_false]
          omega

theorem decodeGo_maskIdx (sb response : List Nat) :
    ∀ ops i cur rs, decodeGo sb response ops i cur = .ok rs →
      ∀ k, k < ops.length → (i + k) / 8 < sb.length := by
  intro ops
  induction ops with
  | nil =>
    intro i cur rs h k hk
    simp at hk
  | cons op rest ih =>
    intro i cur rs h k hk
    simp only [decodeGo] at h
    split at h
    · exact absurd h (by simp)
    · rename_i b hsb
      have h0 : i / 8 < sb.length := by
        by_contra hge
        rw [List.getElem?_eq_none (by omega)] at hsb
        exact absurd hsb (by simp)
      cases k with
      | zero => simpa using h0
      | succ k1 =>
        have hk1 : k1 < rest.length := by simpa using hk
        have heq : i + (k1 + 1) = (i + 1) + k1 := by omega
        rw [heq]
        split at h
        · split at h
          · split at h
            · split at h
              · exact absurd h (by simp)
              · exact ih _ _ _ (by assumption) k1 hk1
            · exact absurd h (by simp)
          · split at h
            · exact absurd h (by simp)
            · exact ih _ _ _ (by assumption) k1 hk1
        · split at h
          · exact absurd h (by simp)
          · exact ih _ _ _ (by assumption) k1 hk1

/-! State lemmas. -/

theorem disconnect_connInv (c : ClientState) (h : connInv c) :
    connInv (NintendontClient.disconnect c) := by
  unfold NintendontClient.disconnect
  cases hs : c.streams with
  | some u => simp [connInv]
  | none =>
    simp only
    exact h

theorem makeRequest_client (net : Nat → NetResult) (rs : RunState) (data : List Nat) :
    (makeRequest net rs data).2.client = rs.client ∨
      (makeRequest net rs data).2.client = NintendontClient.disconnect rs.client := by
  unfold makeRequest
  cases hs : rs.client.streams with
  | none => left; rfl
  | some u =>
    cases net rs.reqIdx with
    | ok raw =>
      simp only
      split
      · right; rfl
      · left; rfl
    | timeout => right; rfl
    | reset => right; rfl

theorem makeRequest_requests (net : Nat → NetResult) (rs : RunState) (data : List Nat) :
    (makeRequest net rs data).2.requests = rs.requests := by
  unfold makeRequest
  cases hs : rs.client.streams with
  | none => rfl
  | some u =>
    cases net rs.reqIdx with
    | ok raw =>
      simp only
      split
      · rfl
      · rfl
    | timeout => rfl
    | reset => rfl

theorem makeRequest_ok_state (net : Nat → NetResult) (rs : RunState) (data : List Nat)
    (resp : List Nat) (rs1 : RunState)
    (h : makeRequest net rs data = (.ok resp, rs1)) :
    rs1 = { rs with sent := rs.sent ++ [data], reqIdx := rs.reqIdx + 1 } ∧
      ∃ raw, net rs.reqIdx = .ok raw ∧ resp = raw.take 1024 ∧ resp ≠ [] := by
  unfold makeRequest at h
  cases hs : rs.client.streams with
  | none => rw [hs] at h; simp at h
  | some u =>
    rw [hs] at h
    cases hn : net rs.reqIdx with
    | ok raw =>
      rw [hn] at h
      simp only at h
      split at h
      · simp at h
      · rename_i hne
        simp only [Prod.mk.injEq, Except.ok.injEq] at h
        exact ⟨h.2.symm, raw, rfl, h.1.symm, by rw [← h.1]; exact hne⟩
    | timeout => rw [hn] at h; simp at h
    | reset => rw [hn] at h; simp at h

theorem makeRequest_error_kinds (net : Nat → NetResult) (rs : RunState) (data : List Nat)
    (e : GCError) (rs1 : RunState)
    (h : makeRequest net rs data = (.error e, rs1)) :
    e = .notConnected ∨ e = .timeout ∨ e = .reset ∨ e = .connectionClosed := by
  unfold makeRequest at h
  cases hs : rs.client.streams with
  | none => rw [hs] at h; simp only [Prod.mk.injEq, Except.error.injEq] at h; exact .inl h.1.symm
  | some u =>
    rw [hs] at h
    cases hn : net rs.reqIdx with
    | ok raw =>
      rw [hn] at h
      simp only at h
      split at h
      · simp only [Prod.mk.injEq, Except.error.injEq] at h
        exact .inr (.inr (.inr h.1.symm))
      · simp at h
    | timeout =>
      rw [hn] at h
      simp only [Prod.mk.injEq, Except.error.injEq] at h
      exact .inr (.inl h.1.symm)
    | reset =>
      rw [hn] at h
      simp only [Prod.mk.injEq, Except.error.injEq] at h
      exact .inr (.inr (.inl h.1.symm))

theorem coreReqOps_requests (net : Nat → NetResult) (rs : RunState)
    (addresses : List Nat) (ops : List NintendontOperation) :
    (requestOperationsCore net rs addresses ops).2.requests = rs.requests := by
  unfold requestOperationsCore
  cases hm : rs.client.meta_info with
  | none => rfl
  | some meta =>
    simp only
    split
    · rfl
    · split
      · rfl
      · rename_i data hbf
        split
        · rfl
        · cases hmr : makeRequest net rs data with
          | mk r rs1 =>
            have hreq := makeRequest_requests net rs data
            rw [hmr] at hreq
            cases r with
            | error e => exact hreq
            | ok response =>
              simp only
              split
              · exact hreq
              · exact hreq

theorem reqOps_requests (net : Nat → NetResult) (rs : RunState)
    (addresses : List Nat) (ops : List NintendontOperation) :
    (requestOperations net rs addresses ops).2.requests = rs.requests ++ [(addresses, ops)] := by
  unfold requestOperations
  rw [coreReqOps_requests]

theorem coreReqOps_client (net : Nat → NetResult) (rs : RunState)
    (addresses : List Nat) (ops : List NintendontOperation) :
    (requestOperationsCore net rs addresses ops).2.client = rs.client ∨
      (requestOperationsCore net rs addresses ops).2.client =
        NintendontClient.disconnect rs.client := by
  unfold requestOperationsCore
  cases hm : rs.client.meta_info with
  | none => left; rfl
  | some meta =>
    simp only
    split
    · left; rfl
    · split
      · left; rfl
      · rename_i data hbf
        split
        · left; rfl
        · cases hmr : makeRequest net rs data with
          | mk r rs1 =>
            have hcl := makeRequest_client net rs data
            rw [hmr] at hcl
            cases r with
            | error e => exact hcl
            | ok response =>
              simp only
              split
              · exact hcl
              · exact hcl

theorem reqOps_client (net : Nat → NetResult) (rs : RunState)
    (addresses : List Nat) (ops : List NintendontOperation) :
    (requestOperations net rs addresses ops).2.client = rs.client ∨
      (requestOperations net rs addresses ops).2.client =
        NintendontClient.disconnect rs.client := by
  unfold requestOperations
  exact coreReqOps_client net _ addresses ops

theorem reqOps_connInv (net : Nat → NetResult) (rs : RunState)
    (addresses : List Nat) (ops : List NintendontOperation)
    (h : connInv rs.client) :
    connInv (requestOperations net rs addresses ops).2.client := by
  rcases reqOps_client net rs addresses ops with hc | hc
  · rw [hc]; exact h
  · rw [hc]; exact disconnect_connInv _ h

theorem coreReqOps_assert (net : Nat → NetResult) (rs : RunState)
    (addresses : List Nat) (ops : List NintendontOperation) (rs1 : RunState)
    (h : requestOperationsCore net rs addresses ops = (.error .assertionError, rs1)) :
    rs1.client = rs.client ∧ rs1.sent.length = rs.sent.length + 1 := by
  unfold requestOperationsCore at h
  cases hm : rs.client.meta_info with
  | none => rw [hm] at h; simp at h
  | some meta =>
    rw [hm] at h
    simp only at h
    split at h
    · simp at h
    · split at h
      · simp at h
      · rename_i data hbf
        split at h
        · simp at h
        · cases hmr : makeRequest net rs data with
          | mk r rs2 =>
            rw [hmr] at h
            cases r with
            | error e =>
              simp only [Prod.mk.injEq, Except.error.injEq] at h
              rcases makeRequest_error_kinds net rs data e rs2 hmr with h1 | h1 | h1 | h1 <;>
                rw [h1] at h <;> simp at h
            | ok response =>
              simp only at h
              split at h
              · simp only [Prod.mk.injEq, Except.error.injEq] at h
                obtain ⟨hst, hraw⟩ := makeRequest_ok_state net rs data response rs2 hmr
                rw [← h.2, hst]
                simp
              · simp at h

/-! Single-request lemmas for the public operations: each public call
issues frames with one address and one operation, so the generic codec is
specialized to that shape. -/

theorem make_read_zero (s : Nat) (o : Int) :
    NintendontOperation.make_read 0 s (some o) = .ok ⟨144, s, some o, none⟩ := rfl

theorem make_read_zero_none (s : Nat) :
    NintendontOperation.make_read 0 s none = .ok ⟨128, s, none, none⟩ := rfl

theorem make_write_zero (d : List Nat) (o : Int) :
    NintendontOperation.make_write false 0 d (some o) = .ok ⟨80, d.length, some o, some d⟩ := rfl

theorem make_write_zero_none (d : List Nat) :
    NintendontOperation.make_write false 0 d none = .ok ⟨64, d.length, none, some d⟩ := rfl

theorem buildFrame_single_read (p s : Nat) (o : Int)
    (hp : p < 4294967296) (hs : s ≤ 255) (ho1 : 0 ≤ o) (ho2 : o ≤ 65535) :
    buildFrame [p] [⟨144, s, some o, none⟩] =
      some ([0, 1, 1, 1] ++
        [p / 16777216 % 256, p / 65536 % 256, p / 256 % 256, p % 256] ++
        [144, s, o.toNat / 256, o.toNat % 256]) := by
  simp [buildFrame, packAddresses, packOperations, NintendontOperation.to_bytes,
    pack8, pack16, pack32, READ_COMMANDS, hp, hs, ho1, ho2]

theorem buildFrame_single_read_none (p s : Nat)
    (hp : p < 4294967296) (hs : s ≤ 255) :
    buildFrame [p] [⟨128, s, none, none⟩] =
      some ([0, 1, 1, 1] ++
        [p / 16777216 % 256, p / 65536 % 256, p / 256 % 256, p % 256] ++
        [128, s]) := by
  simp [buildFrame, packAddresses, packOperations, NintendontOperation.to_bytes,
    pack8, pack16, pack32, READ_COMMANDS, hp, hs]

theorem buildFrame_single_write (p : Nat) (d : List Nat) (o : Int)
    (hp : p < 4294967296) (hs : d.length ≤ 255) (ho1 : 0 ≤ o) (ho2 : o ≤ 65535) :
    buildFrame [p] [⟨80, d.length, some o, some d⟩] =
      some ([0, 1, 1, 1] ++
        [p / 16777216 % 256, p / 65536 % 256, p / 256 % 256, p % 256] ++
        ([80, d.length, o.toNat / 256, o.toNat % 256] ++ d)) := by
  simp [buildFrame, packAddresses, packOperations, NintendontOperation.to_bytes,
    pack8, pack16, pack32, READ_COMMANDS, hp, hs, ho1, ho2]

theorem buildFrame_single_write_none (p : Nat) (d : List Nat)
    (hp : p < 4294967296) (hs : d.length ≤ 255) :
    buildFrame [p] [⟨64, d.length, none, some d⟩] =
      some ([0, 1, 1, 1] ++
        [p / 16777216 % 256, p / 65536 % 256, p / 256 % 256, p % 256] ++
        ([64, d.length] ++ d)) := by
  simp [buildFrame, packAddresses, packOperations, NintendontOperation.to_bytes,
    pack8, pack16, pack32, READ_COMMANDS, hp, hs]

theorem decode_single_read_success (hd : Nat) (tl : List Nat) (hdr s : Nat) (o : Option Int)
    (hread : hdr &&& 128 = 128) (hbit : hd &&& 1 ≠ 0) (hlen : s ≤ tl.length) :
    decodeResults [⟨hdr, s, o, none⟩] (hd :: tl) = .ok [some (tl.take s)] := by
  have hx : hd &&& 1 = hd % 2 := Nat.and_one_is_mod hd
  rw [hx] at hbit
  have hm : hd % 2 = 1 := by omega
  simp [decodeResults, maskLen, decodeGo, NintendontOperation.is_read, HAS_READ,
    hread, hm, hlen, Nat.min_eq_left hlen]

theorem decode_single_read_fail (hd : Nat) (tl : List Nat) (op : NintendontOperation)
    (hbit : hd &&& 1 = 0) :
    decodeResults [op] (hd :: tl) = .ok [none] := by
  have hx : hd &&& 1 = hd % 2 := Nat.and_one_is_mod hd
  rw [hx] at hbit
  simp [decodeResults, maskLen, decodeGo, hbit]

theorem decode_single_write (hd : Nat) (tl : List Nat) (op : NintendontOperation)
    (hw : op.is_read = false) :
    ∃ v, decodeResults [op] (hd :: tl) = .ok [v] := by
  by_cases hbit : hd &&& 1 = 0
  · exact ⟨none, decode_single_read_fail hd tl op hbit⟩
  · refine ⟨some [], ?_⟩
    have hx : hd &&& 1 = hd % 2 := Nat.and_one_is_mod hd
    rw [hx] at hbit
    have hm : hd % 2 = 1 := by omega
    simp [decodeResults, maskLen, decodeGo, hm, hw]

theorem reqOps_single (net : Nat → NetResult) (rs : RunState) (p : Nat)
    (op : NintendontOperation) (data raw : List Nat) (hd : Nat) (tl : List Nat)
    (v : Option (List Nat))
    (hc : connectedStd rs.client)
    (hbf : buildFrame [p] [op] = some data)
    (hdl : data.length ≤ 800)
    (hnet : net rs.reqIdx = .ok raw)
    (hresp : raw.take 1024 = hd :: tl)
    (hdec : decodeResults [op] (hd :: tl) = .ok [v]) :
    requestOperations net rs [p] [op] =
      (.ok [v],
        { rs with requests := rs.requests ++ [([p], [op])],
                  sent := rs.sent ++ [data],
                  reqIdx := rs.reqIdx + 1 }) := by
  unfold requestOperations requestOperationsCore
  simp only [hc.2]
  rw [if_neg (by simp [stdMeta])]
  simp only [hbf]
  rw [if_neg (by simp [stdMeta]; omega)]
  unfold makeRequest
  simp only [hc.1, hnet, hresp]
  rw [if_neg (by simp)]
  simp only [hdec]

theorem req_read_ptr_success (net : Nat → NetResult) (rs : RunState) (p s : Nat) (o : Int)
    (raw : List Nat)
    (hc : connectedStd rs.client) (hp : p < 4294967296) (hs : s ≤ 255)
    (ho1 : 0 ≤ o) (ho2 : o ≤ 65535)
    (hnet : net rs.reqIdx = .ok raw) (hcs : chunkSuccess raw s) :
    ∃ fr, requestOperations net rs [p] [⟨144, s, some o, none⟩] =
      (.ok [some (((raw.take 1024).drop 1).take s)],
        { rs with requests := rs.requests ++ [([p], [⟨144, s, some o, none⟩])],
                  sent := rs.sent ++ [fr],
                  reqIdx := rs.reqIdx + 1 }) := by
  obtain ⟨hne, hbit, hlen⟩ := hcs
  cases hresp : raw.take 1024 with
  | nil => exact absurd hresp hne
  | cons hd tl =>
    rw [hresp] at hbit hlen
    simp only [List.headI_cons] at hbit
    have hlen' : s ≤ tl.length := by
      simp only [List.length_cons] at hlen
      omega
    refine ⟨[0, 1, 1, 1] ++ [p / 16777216 % 256, p / 65536 % 256, p / 256 % 256, p % 256] ++
      [144, s, o.toNat / 256, o.toNat % 256], ?_⟩
    have hdec := decode_single_read_success hd tl 144 s (some o) (by decide) hbit hlen'
    have hmain := reqOps_single net rs p ⟨144, s, some o, none⟩ _ raw hd tl _ hc
      (buildFrame_single_read p s o hp hs ho1 ho2) (by simp) hnet hresp hdec
    rw [hmain]
    simp

theorem req_read_ptr_fail (net : Nat → NetResult) (rs : RunState) (p s : Nat) (o : Int)
    (raw : List Nat)
    (hc : connectedStd rs.client) (hp : p < 4294967296) (hs : s ≤ 255)
    (ho1 : 0 ≤ o) (ho2 : o ≤ 65535)
    (hnet : net rs.reqIdx = .ok raw) (hcu : chunkUnreadable raw) :
    ∃ fr, requestOperations net rs [p] [⟨144, s, some o, none⟩] =
      (.ok [none],
        { rs with requests := rs.requests ++ [([p], [⟨144, s, some o, none⟩])],
                  sent := rs.sent ++ [fr],
                  reqIdx := rs.reqIdx + 1 }) := by
  obtain ⟨hne, hbit⟩ := hcu
  cases hresp : raw.take 1024 with
  | nil => exact absurd hresp hne
  | cons hd tl =>
    rw [hresp] at hbit
    simp only [List.headI_cons] at hbit
    exact ⟨_, reqOps_single net rs p ⟨144, s, some o, none⟩ _ raw hd tl _ hc
      (buildFrame_single_read p s o hp hs ho1 ho2) (by simp) hnet hresp
      (decode_single_read_fail hd tl _ hbit)⟩

theorem req_read_addr_success (net : Nat → NetResult) (rs : RunState) (p s : Nat)
    (raw : List Nat)
    (hc : connectedStd rs.client) (hp : p < 4294967296) (hs : s ≤ 255)
    (hnet : net rs.reqIdx = .ok raw) (hcs : chunkSuccess raw s) :
    ∃ fr, requestOperations net rs [p] [⟨128, s, none, none⟩] =
      (.ok [some (((raw.take 1024).drop 1).take s)],
        { rs with requests := rs.requests ++ [([p], [⟨128, s, none, none⟩])],
                  sent := rs.sent ++ [fr],
                  reqIdx := rs.reqIdx + 1 }) := by
  obtain ⟨hne, hbit, hlen⟩ := hcs
  cases hresp : raw.take 1024 with
  | nil => exact absurd hresp hne
  | cons hd tl =>
    rw [hresp] at hbit hlen
    simp only [List.headI_cons] at hbit
    have hlen' : s ≤ tl.length := by
      simp only [List.length_cons] at hlen
      omega
    refine ⟨[0, 1, 1, 1] ++ [p / 16777216 % 256, p / 65536 % 256, p / 256 % 256, p % 256] ++
      [128, s], ?_⟩
    have hdec := decode_single_read_success hd tl 128 s none (by decide) hbit hlen'
    have hmain := reqOps_single net rs p ⟨128, s, none, none⟩ _ raw hd tl _ hc
      (buildFrame_single_read_none p s hp hs) (by simp) hnet hresp hdec
    rw [hmain]
    simp

theorem req_read_addr_fail (net : Nat → NetResult) (rs : RunState) (p s : Nat)
    (raw : List Nat)
    (hc : connectedStd rs.client) (hp : p < 4294967296) (hs : s ≤ 255)
    (hnet : net rs.reqIdx = .ok raw) (hcu : chunkUnreadable raw) :
    ∃ fr, requestOperations net rs [p] [⟨128, s, none, none⟩] =
      (.ok [none],
        { rs with requests := rs.requests ++ [([p], [⟨128, s, none, none⟩])],
                  sent := rs.sent ++ [fr],
                  reqIdx := rs.reqIdx + 1 }) := by
  obtain ⟨hne, hbit⟩ := hcu
  cases hresp : raw.take 1024 with
  | nil => exact absurd hresp hne
  | cons hd tl =>
    rw [hresp] at hbit
    simp only [List.headI_cons] at hbit
    exact ⟨_, reqOps_single net rs p ⟨128, s, none, none⟩ _ raw hd tl _ hc
      (buildFrame_single_read_none p s hp hs) (by simp) hnet hresp
      (decode_single_read_fail hd tl _ hbit)⟩

theorem req_write_ptr (net : Nat → NetResult) (rs : RunState) (p : Nat) (d : List Nat) (o : Int)
    (raw : List Nat)
    (hc : connectedStd rs.client) (hp : p < 4294967296) (hs : d.length ≤ 255)
    (hd788 : d.length ≤ 788)
    (ho1 : 0 ≤ o) (ho2 : o ≤ 65535)
    (hnet : net rs.reqIdx = .ok raw) (hne : raw.take 1024 ≠ []) :
    ∃ v fr, requestOperations net rs [p] [⟨80, d.length, some o, some d⟩] =
      (.ok [v],
        { rs with requests := rs.requests ++ [([p], [⟨80, d.length, some o, some d⟩])],
                  sent := rs.sent ++ [fr],
                  reqIdx := rs.reqIdx + 1 }) := by
  cases hresp : raw.take 1024 with
  | nil => exact absurd hresp hne
  | cons hd tl =>
    obtain ⟨v, hdec⟩ := decode_single_write hd tl ⟨80, d.length, some o, some d⟩
      (by simp [NintendontOperation.is_read, HAS_READ])
    exact ⟨v, _, reqOps_single net rs p ⟨80, d.length, some o, some d⟩ _ raw hd tl _ hc
      (buildFrame_single_write p d o hp hs ho1 ho2) (by simp; omega) hnet hresp hdec⟩

/-! Chunk-loop lemmas for the asymmetric read failure (claim C3). -/

theorem readPointerLoop_fail (net : Nat → NetResult) (p : Nat) (off : Int) (n : Nat) :
    ∀ t i acc rs,
      connectedStd rs.client →
      p < 4294967296 →
      (∀ j, j ≤ t → 0 ≤ off + ((i + CHUNK_SIZE * j : Nat) : Int) ∧
        off + ((i + CHUNK_SIZE * j : Nat) : Int) ≤ 65535) →
      (∀ j, j < t → i + CHUNK_SIZE * j < n ∧
        ∃ raw, net (rs.reqIdx + j) = .ok raw ∧
          chunkSuccess raw (min (n - (i + CHUNK_SIZE * j)) CHUNK_SIZE)) →
      (i + CHUNK_SIZE * t < n ∧
        ∃ raw, net (rs.reqIdx + t) = .ok raw ∧ chunkUnreadable raw) →
      ∃ rsF, readPointerLoop net p off n i acc rs = (.ok none, rsF) ∧
        rsF.client = rs.client ∧
        rsF.sent.length = rs.sent.length + (t + 1) := by
  intro t
  induction t with
  | zero =>
    intro i acc rs hc hp hoff hgood hbad
    obtain ⟨hin, raw, hnet, hcu⟩ := hbad
    rw [CHUNK_SIZE] at hin
    have hin' : i < n := by omega
    have hof := hoff 0 (by omega)
    simp only [Nat.mul_zero, Nat.add_zero] at hof hnet
    obtain ⟨fr, heq⟩ := req_read_ptr_fail net rs p (min (n - i) CHUNK_SIZE) (off + (i : Int))
      raw hc hp (le_trans (Nat.min_le_right _ _) (by decide)) hof.1 hof.2 hnet hcu
    rw [readPointerLoop, dif_pos hin']
    simp only [make_read_zero]
    rw [heq]
    exact ⟨_, rfl, rfl, by simp⟩
  | succ t ih =>
    intro i acc rs hc hp hoff hgood hbad
    obtain ⟨hin, raw0, hnet0, hcs0⟩ := hgood 0 (by omega)
    simp only [Nat.mul_zero, Nat.add_zero] at hin hnet0 hcs0
    have hof := hoff 0 (by omega)
    simp only [Nat.mul_zero, Nat.add_zero] at hof
    obtain ⟨fr, heq⟩ := req_read_ptr_success net rs p (min (n - i) CHUNK_SIZE) (off + (i : Int))
      raw0 hc hp (le_trans (Nat.min_le_right _ _) (by decide)) hof.1 hof.2 hnet0 hcs0
    rw [readPointerLoop, dif_pos hin]
    simp only [make_read_zero]
    rw [heq]
    simp only [List.head?_cons]
    obtain ⟨rsF, hloop, hcl, hsent⟩ := ih (i + CHUNK_SIZE)
      (acc ++ [List.take (min (n - i) CHUNK_SIZE) (List.drop 1 (List.take 1024 raw0))])
      ⟨rs.client, rs.reqIdx + 1, rs.sent ++ [fr],
        rs.requests ++ [([p], [⟨144, min (n - i) CHUNK_SIZE, some (off + (i : Int)), none⟩])]⟩
      hc hp
      (by
        intro j hj
        have h2 := hoff (j + 1) (by omega)
        have hnat : i + CHUNK_SIZE * (j + 1) = i + CHUNK_SIZE + CHUNK_SIZE * j := by ring
        rw [hnat] at h2
        exact h2)
      (by
        intro j hj
        have h2 := hgood (j + 1) (by omega)
        have hnat : i + CHUNK_SIZE * (j + 1) = i + CHUNK_SIZE + CHUNK_SIZE * j := by ring
        have hidx : rs.reqIdx + (j + 1) = rs.reqIdx + 1 + j := by omega
        rw [hnat, hidx] at h2
        exact h2)
      (by
        have h2 := hbad
        have hnat : i + CHUNK_SIZE * (t + 1) = i + CHUNK_SIZE + CHUNK_SIZE * t := by ring
        have hidx : rs.reqIdx + (t + 1) = rs.reqIdx + 1 + t := by omega
        rw [hnat, hidx] at h2
        exact h2)
    refine ⟨rsF, hloop, hcl, ?_⟩
    simp only [List.length_append, List.length_cons, List.length_nil] at hsent ⊢
    omega

theorem readAddressLoop_fail (net : Nat → NetResult) (a : Nat) (n : Nat) :
    ∀ t i acc rs,
      connectedStd rs.client →
      (∀ j, j ≤ t → a + (i + CHUNK_SIZE * j) < 4294967296) →
      (∀ j, j < t → i + CHUNK_SIZE * j < n ∧
        ∃ raw, net (rs.reqIdx + j) = .ok raw ∧
          chunkSuccess raw (min (n - (i + CHUNK_SIZE * j)) CHUNK_SIZE)) →
      (i + CHUNK_SIZE * t < n ∧
        ∃ raw, net (rs.reqIdx + t) = .ok raw ∧ chunkUnreadable raw) →
      ∃ rsF, readAddressLoop net a n i acc rs = (.error .invalidAddress, rsF) ∧
        rsF.client = rs.client ∧
        rsF.sent.length = rs.sent.length + (t + 1) := by
  intro t
  induction t with
  | zero =>
    intro i acc rs hc haddr hgood hbad
    obtain ⟨hin, raw, hnet, hcu⟩ := hbad
    rw [CHUNK_SIZE] at hin
    have hin' : i < n := by omega
    have ha := haddr 0 (by omega)
    simp only [Nat.mul_zero, Nat.add_zero] at ha hnet
    obtain ⟨fr, heq⟩ := req_read_addr_fail net rs (a + i) (min (n - i) CHUNK_SIZE)
      raw hc ha (le_trans (Nat.min_le_right _ _) (by decide)) hnet hcu
    rw [readAddressLoop, dif_pos hin']
    simp only [make_read_zero_none]
    rw [heq]
    exact ⟨_, rfl, rfl, by simp⟩
  | succ t ih =>
    intro i acc rs hc haddr hgood hbad
    obtain ⟨hin, raw0, hnet0, hcs0⟩ := hgood 0 (by omega)
    simp only [Nat.mul_zero, Nat.add_zero] at hin hnet0 hcs0
    have ha := haddr 0 (by omega)
    simp only [Nat.mul_zero, Nat.add_zero] at ha
    obtain ⟨fr, heq⟩ := req_read_addr_success net rs (a + i) (min (n - i) CHUNK_SIZE)
      raw0 hc ha (le_trans (Nat.min_le_right _ _) (by decide)) hnet0 hcs0
    rw [readAddressLoop, dif_pos hin]
    simp only [make_read_zero_none]
    rw [heq]
    simp only [List.head?_cons]
    obtain ⟨rsF, hloop, hcl, hsent⟩ := ih (i + CHUNK_SIZE)
      (acc ++ [List.take (min (n - i) CHUNK_SIZE) (List.drop 1 (List.take 1024 raw0))])
      ⟨rs.client, rs.reqIdx + 1, rs.sent ++ [fr],
        rs.requests ++ [([a + i], [⟨128, min (n - i) CHUNK_SIZE, none, none⟩])]⟩
      hc
      (by
        intro j hj
        have h2 := haddr (j + 1) (by omega)
        have hnat : i + CHUNK_SIZE * (j + 1) = i + CHUNK_SIZE + CHUNK_SIZE * j := by ring
        rw [hnat] at h2
        exact h2)
      (by
        intro j hj
        have h2 := hgood (j + 1) (by omega)
        have hnat : i + CHUNK_SIZE * (j + 1) = i + CHUNK_SIZE + CHUNK_SIZE * j := by ring
        have hidx : rs.reqIdx + (j + 1) = rs.reqIdx + 1 + j := by omega
        rw [hnat, hidx] at h2
        exact h2)
      (by
        have h2 := hbad
        have hnat : i + CHUNK_SIZE * (t + 1) = i + CHUNK_SIZE + CHUNK_SIZE * t := by ring
        have hidx : rs.reqIdx + (t + 1) = rs.reqIdx + 1 + t := by omega
        rw [hnat, hidx] at h2
        exact h2)
    refine ⟨rsF, hloop, hcl, ?_⟩
    simp only [List.length_append, List.length_cons, List.length_nil] at hsent ⊢
    omega

/-- Claim C3: for every address and size, if a constituent chunk of
read_address is reported unreadable (cleared success bit), read_address
raises the NintendontException for invalid addresses and the first failing
chunk aborts the whole call (exactly t+1 frames are sent when chunk t
fails); under the same chunk outcomes, read_pointer returns the absent
marker (None) instead of raising — the two reads are intentionally
asymmetric.  The second conjunct covers the zero-size calls, which still
issue one operation. -/
theorem claim_C3 :
    (∀ (net : Nat → NetResult) (rs : RunState) (p a : Nat) (off : Int) (n t : Nat),
      connectedStd rs.client →
      p < 4294967296 →
      (∀ j, j ≤ t → a + CHUNK_SIZE * j < 4294967296) →
      (∀ j, j ≤ t → 0 ≤ off + ((CHUNK_SIZE * j : Nat) : Int) ∧
        off + ((CHUNK_SIZE * j : Nat) : Int) ≤ 65535) →
      (∀ j, j < t → CHUNK_SIZE * j < n ∧
        ∃ raw, net (rs.reqIdx + j) = .ok raw ∧
          chunkSuccess raw (min (n - CHUNK_SIZE * j) CHUNK_SIZE)) →
      (CHUNK_SIZE * t < n ∧
        ∃ raw, net (rs.reqIdx + t) = .ok raw ∧ chunkUnreadable raw) →
      (∃ rsF, NintendontClient.read_address net rs a n = (.error .invalidAddress, rsF) ∧
        rsF.sent.length = rs.sent.length + (t + 1)) ∧
      (∃ rsF, NintendontClient.read_pointer net rs p off n = (.ok none, rsF) ∧
        rsF.sent.length = rs.sent.length + (t + 1))) ∧
    (∀ (net : Nat → NetResult) (rs : RunState) (p a : Nat) (off : Int),
      connectedStd rs.client →
      p < 4294967296 → a < 4294967296 →
      0 ≤ off → off ≤ 65535 →
      (∃ raw, net rs.reqIdx = .ok raw ∧ chunkUnreadable raw) →
      (∃ rsF, NintendontClient.read_address net rs a 0 = (.error .invalidAddress, rsF)) ∧
      (∃ rsF, NintendontClient.read_pointer net rs p off 0 = (.ok none, rsF))) := by
  constructor
  · intro net rs p a off n t hc hp haddr hoff hgood hbad
    have hn : n ≠ 0 := by
      have := hbad.1
      omega
    constructor
    · obtain ⟨rsF, hloop, hcl, hsent⟩ := readAddressLoop_fail net a n t 0 [] rs hc
        (by intro j hj; simpa using haddr j hj)
        (by intro j hj; simpa using hgood j hj)
        (by simpa using hbad)
      refine ⟨rsF, ?_, hsent⟩
      unfold NintendontClient.read_address
      rw [if_neg hn]
      exact hloop
    · obtain ⟨rsF, hloop, hcl, hsent⟩ := readPointerLoop_fail net p off n t 0 [] rs hc hp
        (by intro j hj; simpa using hoff j hj)
        (by intro j hj; simpa using hgood j hj)
        (by simpa using hbad)
      refine ⟨rsF, ?_, hsent⟩
      unfold NintendontClient.read_pointer
      rw [if_neg hn]
      exact hloop
  · intro net rs p a off hc hp ha ho1 ho2 hbad
    obtain ⟨raw, hnet, hcu⟩ := hbad
    constructor
    · obtain ⟨fr, heq⟩ := req_read_addr_fail net rs a 0 raw hc ha (by decide) hnet hcu
      refine ⟨⟨rs.client, rs.reqIdx + 1, rs.sent ++ [fr],
        rs.requests ++ [([a], [⟨128, 0, none, none⟩])]⟩, ?_⟩
      unfold NintendontClient.read_address
      rw [if_pos rfl]
      simp only [make_read_zero_none]
      rw [heq]
      rfl
    · obtain ⟨fr, heq⟩ := req_read_ptr_fail net rs p 0 off raw hc hp (by decide) ho1 ho2 hnet hcu
      refine ⟨⟨rs.client, rs.reqIdx + 1, rs.sent ++ [fr],
        rs.requests ++ [([p], [⟨144, 0, some off, none⟩])]⟩, ?_⟩
      unfold NintendontClient.read_pointer
      rw [if_pos rfl]
      simp only [make_read_zero]
      rw [heq]
      rfl

/-- Witness for claim C3 at a concrete input: a connected client whose peer
reports every operation unreadable; the 5-byte read fails in the first
chunk, read_address raising and read_pointer returning None. -/
theorem claim_C3_witness :
    connectedStd (⟨none, some (), some stdMeta⟩ : ClientState) ∧
    (∃ rsF, NintendontClient.read_address (fun _ => NetResult.ok [0])
        ⟨⟨none, some (), some stdMeta⟩, 0, [], []⟩ 2147483648 5 =
        (.error .invalidAddress, rsF) ∧
        rsF.sent.length = (⟨⟨none, some (), some stdMeta⟩, 0, [], []⟩ : RunState).sent.length + (0 + 1)) ∧
    (∃ rsF, NintendontClient.read_pointer (fun _ => NetResult.ok [0])
        ⟨⟨none, some (), some stdMeta⟩, 0, [], []⟩ 2147483648 4 5 =
        (.ok none, rsF) ∧
        rsF.sent.length = (⟨⟨none, some (), some stdMeta⟩, 0, [], []⟩ : RunState).sent.length + (0 + 1)) :=
  ⟨⟨rfl, rfl⟩,
    claim_C3.1 (fun _ => NetResult.ok [0]) ⟨⟨none, some (), some stdMeta⟩, 0, [], []⟩
      2147483648 2147483648 4 5 0 ⟨rfl, rfl⟩ (by decide)
      (by intro j hj; have hj0 : j = 0 := Nat.le_zero.mp hj; subst hj0; decide)
      (by intro j hj; have hj0 : j = 0 := Nat.le_zero.mp hj; subst hj0; decide)
      (by intro j hj; exact absurd hj (by omega))
      ⟨by decide, [0], rfl, by decide, by decide⟩⟩

/-- Claim C1: decoding a batch of N operations yields exactly N results in
input order; result i is present exactly when bit i of the bitmask —
byte[i/8] & (1 << (i%8)) over the leading ceil(N/8) bytes — is set; a set
bit on a read consumes the next `size` payload bytes, a set bit on a write
yields the empty success marker, a cleared bit yields None with zero bytes
consumed.  The last two conjuncts check the 3-operation scenario with
bitmask 0b00000101 and the empty-success write marker. -/
theorem claim_C1 :
    (∀ (ops : List NintendontOperation) (response : List Nat)
       (rs : List (Option (List Nat))),
      decodeResults ops response = .ok rs → rs.length = ops.length) ∧
    (∀ (ops : List NintendontOperation) (response : List Nat)
       (rs : List (Option (List Nat))) (k : Nat) (op : NintendontOperation)
       (r : Option (List Nat)),
      decodeResults ops response = .ok rs → ops[k]? = some op → rs[k]? = some r →
      r.isSome = bitTestList (response.take (maskLen ops.length)) k) ∧
    (decodeResults [⟨128, 2, none, none⟩, ⟨128, 3, none, none⟩, ⟨128, 1, none, none⟩]
        [5, 10, 11, 12] = .ok [some [10, 11], none, some [12]]) ∧
    (decodeResults [⟨64, 3, none, some [1, 2, 3]⟩] [1] = .ok [some []]) := by
  refine ⟨?_, ?_, by decide, by decide⟩
  · intro ops response rs h
    exact decodeGo_length _ _ _ _ _ _ h
  · intro ops response rs k op r h hop hr
    have := decodeGo_isSome (response.take (maskLen ops.length)) response ops 0
      (maskLen ops.length) rs h k op r hop hr
    simpa using this

/-- Witness for claim C1: the general conjuncts applied to the concrete
3-operation scenario. -/
theorem claim_C1_witness :
    ([some [10, 11], none, some [12]] : List (Option (List Nat))).length =
      [(⟨128, 2, none, none⟩ : NintendontOperation), ⟨128, 3, none, none⟩,
        ⟨128, 1, none, none⟩].length ∧
    (some [10, 11] : Option (List Nat)).isSome =
      bitTestList (List.take (maskLen 3) [5, 10, 11, 12]) 0 :=
  ⟨claim_C1.1 [⟨128, 2, none, none⟩, ⟨128, 3, none, none⟩, ⟨128, 1, none, none⟩]
      [5, 10, 11, 12] [some [10, 11], none, some [12]] (by decide),
    claim_C1.2.1 [⟨128, 2, none, none⟩, ⟨128, 3, none, none⟩, ⟨128, 1, none, none⟩]
      [5, 10, 11, 12] [some [10, 11], none, some [12]] 0 ⟨128, 2, none, none⟩
      (some [10, 11]) (by decide) (by decide) (by decide)⟩

/-- Counterexample to claim C2 as stated: a response whose bitmask reports
a successful 5-byte read but delivers only 2 payload bytes makes the decode
raise the AssertionError, yet the session is NOT torn down — the client
state (streams and meta_info) is exactly as before the call. -/
theorem claim_C2_counterexample :
    (requestOperations (fun _ => NetResult.ok [1, 9])
        ⟨⟨none, some (), some stdMeta⟩, 0, [], []⟩ [2147483648] [⟨128, 5, none, none⟩]).1 =
      .error .assertionError ∧
    (requestOperations (fun _ => NetResult.ok [1, 9])
        ⟨⟨none, some (), some stdMeta⟩, 0, [], []⟩ [2147483648] [⟨128, 5, none, none⟩]).2.client =
      ⟨none, some (), some stdMeta⟩ := by
  decide

/-- Claim C2 as amended: for every successful read the decoder consumes
exactly the declared size (first conjunct); on a consumed-byte mismatch the
AssertionError propagates after exactly one frame was sent (never retried),
but the session is left intact — the client state is unchanged, with no
teardown. -/
theorem claim_C2 :
    (∀ (ops : List NintendontOperation) (response : List Nat)
       (rs : List (Option (List Nat))) (k : Nat) (op : NintendontOperation) (l : List Nat),
      decodeResults ops response = .ok rs → ops[k]? = some op → op.is_read = true →
      rs[k]? = some (some l) → l.length = op.size) ∧
    (∀ (net : Nat → NetResult) (rs : RunState) (addresses : List Nat)
       (ops : List NintendontOperation) (rs1 : RunState),
      requestOperations net rs addresses ops = (.error .assertionError, rs1) →
      rs1.client = rs.client ∧ rs1.sent.length = rs.sent.length + 1) := by
  constructor
  · intro ops response rs k op l h hop hread hr
    exact decodeGo_read_length _ _ _ _ _ _ h k op l hop hr hread
  · intro net rs addresses ops rs1 h
    unfold requestOperations at h
    exact coreReqOps_assert net
      { rs with requests := rs.requests ++ [(addresses, ops)] } addresses ops rs1 h

/-- Witness for claim C2 at the concrete truncated-payload input. -/
theorem claim_C2_witness :
    requestOperations (fun _ => NetResult.ok [1, 9])
      ⟨⟨none, some (), some stdMeta⟩, 0, [], []⟩ [2147483648] [⟨128, 5, none, none⟩] =
      (.error .assertionError,
        ⟨⟨none, some (), some stdMeta⟩, 1, [[0, 1, 1, 1, 128, 0, 0, 0, 128, 5]],
          [([2147483648], [⟨128, 5, none, none⟩])]⟩) ∧
    ((⟨⟨none, some (), some stdMeta⟩, 1, [[0, 1, 1, 1, 128, 0, 0, 0, 128, 5]],
        [([2147483648], [⟨128, 5, none, none⟩])]⟩ : RunState).client =
      (⟨⟨none, some (), some stdMeta⟩, 0, [], []⟩ : RunState).client ∧
     (⟨⟨none, some (), some stdMeta⟩, 1, [[0, 1, 1, 1, 128, 0, 0, 0, 128, 5]],
        [([2147483648], [⟨128, 5, none, none⟩])]⟩ : RunState).sent.length =
      (⟨⟨none, some (), some stdMeta⟩, 0, [], []⟩ : RunState).sent.length + 1) :=
  ⟨by decide,
    claim_C2.2 (fun _ => NetResult.ok [1, 9]) ⟨⟨none, some (), some stdMeta⟩, 0, [], []⟩
      [2147483648] [⟨128, 5, none, none⟩] _ (by decide)⟩

/-- Claim C10: each round trip reads the response once, capped at 1024
bytes (any successfully received response has length at most 1024), and a
response whose bitmask plus successful-read payload requirements exceed
1024 bytes can never decode successfully. -/
theorem claim_C10 :
    (∀ (net : Nat → NetResult) (rs : RunState) (data resp : List Nat) (rs1 : RunState),
      makeRequest net rs data = (.ok resp, rs1) → resp.length ≤ 1024) ∧
    (∀ (ops : List NintendontOperation) (raw : List Nat),
      1024 < requiredBytes ops (raw.take 1024) →
      ∃ e, decodeResults ops (raw.take 1024) = .error e) := by
  constructor
  · intro net rs data resp rs1 h
    obtain ⟨-, raw, -, hresp, -⟩ := makeRequest_ok_state net rs data resp rs1 h
    rw [hresp]
    simp [List.length_take]
  · intro ops raw hreq
    cases hdec : decodeResults ops (raw.take 1024) with
    | error e => exact ⟨e, rfl⟩
    | ok rs =>
      exfalso
      have hlen : (raw.take 1024).length ≤ 1024 := by
        simp [List.length_take]
      cases ops with
      | nil =>
        simp [requiredBytes, maskLen, consumedBytes] at hreq
      | cons o os =>
        unfold decodeResults at hdec
        have h1 := decodeGo_maskIdx _ _ _ _ _ _ hdec os.length (by simp)
        have h2 := decodeGo_consumed _ _ _ _ _ _ hdec
        simp only [requiredBytes] at hreq
        simp only [List.length_cons, List.length_take, Nat.zero_add] at h1 h2 hreq hlen
        rw [Nat.lt_min] at h1
        have hml : maskLen (os.length + 1) = os.length / 8 + 1 := rfl
        rw [hml] at h1 h2 hreq
        omega

/-- Witness for claim C10: five 255-byte reads all marked successful need
1276 response bytes, which can never decode from a capped response. -/
theorem claim_C10_witness :
    1024 < requiredBytes (List.replicate 5 ⟨128, 255, none, none⟩) (List.take 1024 [31]) ∧
    ∃ e, decodeResults (List.replicate 5 (⟨128, 255, none, none⟩ : NintendontOperation))
      (List.take 1024 [31]) = .error e :=
  ⟨by decide, claim_C10.2 (List.replicate 5 ⟨128, 255, none, none⟩) [31] (by decide)⟩

/-! Connect and capacity lemmas. -/

theorem makeRequest_sent (net : Nat → NetResult) (rs : RunState) (data : List Nat)
    (h : rs.client.streams = some ()) :
    (makeRequest net rs data).2.sent = rs.sent ++ [data] := by
  unfold makeRequest
  simp only [h]
  cases net rs.reqIdx with
  | ok raw =>
    simp only
    split
    · rfl
    · rfl
  | timeout => rfl
  | reset => rfl

theorem makeRequest_streams_ok (net : Nat → NetResult) (rs : RunState) (data raw : List Nat)
    (hst : rs.client.streams = some ()) (hnet : net rs.reqIdx = .ok raw)
    (hne : raw.take 1024 ≠ []) :
    makeRequest net rs data =
      (.ok (raw.take 1024), { rs with sent := rs.sent ++ [data], reqIdx := rs.reqIdx + 1 }) := by
  unfold makeRequest
  simp only [hst, hnet]
  rw [if_neg hne]

theorem disconnect_idem (c : ClientState) :
    NintendontClient.disconnect (NintendontClient.disconnect c) =
      NintendontClient.disconnect c := by
  cases hs : c.streams with
  | none => simp [NintendontClient.disconnect, hs]
  | some u => simp [NintendontClient.disconnect, hs]

theorem disconnect_some_connInv (c : ClientState) (h : c.streams = some ()) :
    connInv (NintendontClient.disconnect c) := by
  simp [NintendontClient.disconnect, h, connInv]

/-- Claim C5: connect sends the 4-byte handshake request
[REQUEST_VERSION, 0, 0, 1] whenever it reaches the handshake, and the
response is unpacked as exactly four big-endian 32-bit words in order
(protocol_version, max_input_bytes, max_output_bytes, max_addresses); fewer
or more than 16 bytes fail to unpack.  The final conjunct checks the
scenario response decoding to (1, 800, 800, 16). -/
theorem claim_C5 :
    (∀ (net : Nat → NetResult) (rs : RunState) (addr : String),
      rs.client.address = some addr →
      (NintendontClient.connect net true rs).2.sent = rs.sent ++ [[REQUEST_VERSION, 0, 0, 1]]) ∧
    (∀ b0 b1 b2 b3 b4 b5 b6 b7 b8 b9 b10 b11 b12 b13 b14 b15 : Nat,
      unpackIIII [b0, b1, b2, b3, b4, b5, b6, b7, b8, b9, b10, b11, b12, b13, b14, b15] =
        some (be32 b0 b1 b2 b3, be32 b4 b5 b6 b7, be32 b8 b9 b10 b11, be32 b12 b13 b14 b15)) ∧
    (∀ bs : List Nat, bs.length ≠ 16 → unpackIIII bs = none) ∧
    (∀ (net : Nat → NetResult) (rs : RunState) (addr : String) (raw : List Nat),
      rs.client.address = some addr →
      net rs.reqIdx = .ok raw →
      raw.take 1024 = [0, 0, 0, 1, 0, 0, 3, 32, 0, 0, 3, 32, 0, 0, 0, 16] →
      (NintendontClient.connect net true rs).1 = .ok () ∧
      (NintendontClient.connect net true rs).2.client.meta_info = some ⟨1, 800, 800, 16⟩ ∧
      (NintendontClient.connect net true rs).2.client.streams = some ()) := by
  refine ⟨?_, ?_, ?_, ?_⟩
  · intro net rs addr haddr
    unfold NintendontClient.connect
    simp only [haddr, if_pos]
    cases hmr : makeRequest net
      ⟨⟨some addr, some (), rs.client.meta_info⟩, rs.reqIdx, rs.sent, rs.requests⟩
      [REQUEST_VERSION, 0, 0, 1] with
    | mk r rs2 =>
      have hsent := makeRequest_sent net
        ⟨⟨some addr, some (), rs.client.meta_info⟩, rs.reqIdx, rs.sent, rs.requests⟩
        [REQUEST_VERSION, 0, 0, 1] rfl
      rw [hmr] at hsent
      cases r with
      | error e => exact hsent
      | ok result =>
        dsimp only
        cases hu : unpackIIII result with
        | none => exact hsent
        | some q =>
          obtain ⟨v, mi, mo, ma⟩ := q
          exact hsent
  · intro b0 b1 b2 b3 b4 b5 b6 b7 b8 b9 b10 b11 b12 b13 b14 b15
    rfl
  · intro bs hlen
    unfold unpackIIII
    split
    · rename_i a0 a1 a2 a3 a4 a5 a6 a7 a8 a9 a10 a11 a12 a13 a14 a15
      exact absurd (by simp) hlen
    · rfl
  · intro net rs addr raw haddr hnet hresp
    have hmr := makeRequest_streams_ok net
      ⟨⟨some addr, some (), rs.client.meta_info⟩, rs.reqIdx, rs.sent, rs.requests⟩
      [REQUEST_VERSION, 0, 0, 1] raw rfl hnet (by rw [hresp]; simp)
    unfold NintendontClient.connect
    simp only [haddr, if_pos, hmr, hresp]
    exact ⟨rfl, rfl, rfl⟩

/-- Witness for claim C5 at a concrete connected run: the handshake frame
is sent and the scenario bytes negotiate (1, 800, 800, 16). -/
theorem claim_C5_witness :
    (NintendontClient.connect
        (fun _ => NetResult.ok [0, 0, 0, 1, 0, 0, 3, 32, 0, 0, 3, 32, 0, 0, 0, 16]) true
        ⟨⟨some "wii", none, none⟩, 0, [], []⟩).2.sent =
      ([] : List (List Nat)) ++ [[REQUEST_VERSION, 0, 0, 1]] ∧
    (NintendontClient.connect
        (fun _ => NetResult.ok [0, 0, 0, 1, 0, 0, 3, 32, 0, 0, 3, 32, 0, 0, 0, 16]) true
        ⟨⟨some "wii", none, none⟩, 0, [], []⟩).1 = .ok () ∧
    (NintendontClient.connect
        (fun _ => NetResult.ok [0, 0, 0, 1, 0, 0, 3, 32, 0, 0, 3, 32, 0, 0, 0, 16]) true
        ⟨⟨some "wii", none, none⟩, 0, [], []⟩).2.client.meta_info = some ⟨1, 800, 800, 16⟩ :=
  ⟨claim_C5.1 (fun _ => NetResult.ok [0, 0, 0, 1, 0, 0, 3, 32, 0, 0, 3, 32, 0, 0, 0, 16])
      ⟨⟨some "wii", none, none⟩, 0, [], []⟩ "wii" rfl,
    (claim_C5.2.2.2 (fun _ => NetResult.ok [0, 0, 0, 1, 0, 0, 3, 32, 0, 0, 3, 32, 0, 0, 0, 16])
      ⟨⟨some "wii", none, none⟩, 0, [], []⟩ "wii" _ rfl rfl (by decide)).1,
    (claim_C5.2.2.2 (fun _ => NetResult.ok [0, 0, 0, 1, 0, 0, 3, 32, 0, 0, 3, 32, 0, 0, 0, 16])
      ⟨⟨some "wii", none, none⟩, 0, [], []⟩ "wii" _ rfl rfl (by decide)).2.1⟩

/-- Claim C7: when the address count exceeds the negotiated max_addresses,
or the assembled frame exceeds max_input_bytes, __request_operations raises
the capacity error with no byte sent on the wire and the connection state
(client, sent bytes, round-trip counter) unchanged — only the ghost
requests trace records the attempted call. -/
theorem claim_C7 :
    ∀ (net : Nat → NetResult) (rs : RunState) (addresses : List Nat)
      (ops : List NintendontOperation) (meta : NintendontMetaInfo),
      rs.client.meta_info = some meta →
      (addresses.length > meta.max_addresses →
        requestOperations net rs addresses ops =
          (.error .tooManyAddresses,
            { rs with requests := rs.requests ++ [(addresses, ops)] })) ∧
      (∀ data : List Nat, ¬addresses.length > meta.max_addresses →
        buildFrame addresses ops = some data →
        data.length > meta.max_input_bytes →
        requestOperations net rs addresses ops =
          (.error .commandTooLong,
            { rs with requests := rs.requests ++ [(addresses, ops)] })) := by
  intro net rs addresses ops meta hm
  constructor
  · intro hgt
    unfold requestOperations requestOperationsCore
    simp only [hm]
    rw [if_pos hgt]
  · intro data hle hbf hlong
    unfold requestOperations requestOperationsCore
    simp only [hm]
    rw [if_neg hle]
    simp only [hbf]
    rw [if_pos hlong]

/-- Witness for claim C7: 17 addresses against the standard 16-address
limit, and a 10-byte frame against a 5-byte input limit, both rejected with
the client state intact. -/
theorem claim_C7_witness :
    (requestOperations (fun _ => NetResult.ok [1])
        ⟨⟨none, some (), some stdMeta⟩, 0, [], []⟩ (List.replicate 17 0) [] =
      (.error .tooManyAddresses,
        { (⟨⟨none, some (), some stdMeta⟩, 0, [], []⟩ : RunState) with
          requests := ([] : List (List Nat × List NintendontOperation)) ++
            [(List.replicate 17 0, [])] })) ∧
    (requestOperations (fun _ => NetResult.ok [1])
        ⟨⟨none, some (), some ⟨1, 5, 800, 16⟩⟩, 0, [], []⟩ [2147483648] [⟨128, 5, none, none⟩] =
      (.error .commandTooLong,
        { (⟨⟨none, some (), some ⟨1, 5, 800, 16⟩⟩, 0, [], []⟩ : RunState) with
          requests := ([] : List (List Nat × List NintendontOperation)) ++
            [([2147483648], [⟨128, 5, none, none⟩])] })) :=
  ⟨(claim_C7 (fun _ => NetResult.ok [1]) ⟨⟨none, some (), some stdMeta⟩, 0, [], []⟩
      (List.replicate 17 0) [] stdMeta rfl).1 (by decide),
    (claim_C7 (fun _ => NetResult.ok [1]) ⟨⟨none, some (), some ⟨1, 5, 800, 16⟩⟩, 0, [], []⟩
      [2147483648] [⟨128, 5, none, none⟩] ⟨1, 5, 800, 16⟩ rfl).2
      [0, 1, 1, 1, 128, 0, 0, 0, 128, 5] (by decide) (by decide) (by decide)⟩

/-- Claim C8: disconnect is idempotent — calling it twice equals calling it
once in every state — it is a total function (never raises), and in every
state satisfying the session/limits invariant it leaves both the session
and the negotiated limits cleared. -/
theorem claim_C8 :
    ∀ c : ClientState,
      NintendontClient.disconnect (NintendontClient.disconnect c) =
        NintendontClient.disconnect c ∧
      (connInv c →
        (NintendontClient.disconnect c).streams = none ∧
        (NintendontClient.disconnect c).meta_info = none) := by
  intro c
  constructor
  · exact disconnect_idem c
  · intro hinv
    cases hs : c.streams with
    | none =>
      have hm : c.meta_info = none := by
        unfold connInv at hinv
        rw [hs] at hinv
        simpa using hinv.symm
      simp [NintendontClient.disconnect, hs, hm]
    | some u => simp [NintendontClient.disconnect, hs]

/-- Witness for claim C8 on a concrete connected state. -/
theorem claim_C8_witness :
    NintendontClient.disconnect
        (NintendontClient.disconnect ⟨some "wii", some (), some stdMeta⟩) =
      NintendontClient.disconnect ⟨some "wii", some (), some stdMeta⟩ ∧
    (NintendontClient.disconnect ⟨some "wii", some (), some stdMeta⟩).streams = none ∧
    (NintendontClient.disconnect ⟨some "wii", some (), some stdMeta⟩).meta_info = none :=
  ⟨(claim_C8 ⟨some "wii", some (), some stdMeta⟩).1,
    (claim_C8 ⟨some "wii", some (), some stdMeta⟩).2 rfl⟩

/-! Invariant preservation through the chunk loops (claim C6). -/

theorem readPointerLoop_connInv (net : Nat → NetResult) (p : Nat) (off : Int) (n : Nat) :
    ∀ t i acc rs, n ≤ i + CHUNK_SIZE * t → connInv rs.client →
      connInv (readPointerLoop net p off n i acc rs).2.client := by
  intro t
  induction t with
  | zero =>
    intro i acc rs hle hinv
    rw [readPointerLoop, dif_neg (by omega)]
    exact hinv
  | succ t ih =>
    intro i acc rs hle hinv
    by_cases hi : i < n
    · rw [readPointerLoop, dif_pos hi]
      simp only [make_read_zero]
      cases hro : requestOperations net rs [p]
        [⟨144, min (n - i) CHUNK_SIZE, some (off + (i : Int)), none⟩] with
      | mk r rs1 =>
        have hinv1 : connInv rs1.client := by
          have := reqOps_connInv net rs [p]
            [⟨144, min (n - i) CHUNK_SIZE, some (off + (i : Int)), none⟩] hinv
          rw [hro] at this
          exact this
        cases r with
        | error e => exact hinv1
        | ok results =>
          dsimp only
          cases hh : results.head? with
          | none => exact hinv1
          | some ro =>
            cases ro with
            | none => exact hinv1
            | some chunk =>
              exact ih (i + CHUNK_SIZE) (acc ++ [chunk]) rs1
                (by rw [CHUNK_SIZE] at hle ⊢; omega) hinv1
    · rw [readPointerLoop, dif_neg hi]
      exact hinv

theorem readAddressLoop_connInv (net : Nat → NetResult) (a : Nat) (n : Nat) :
    ∀ t i acc rs, n ≤ i + CHUNK_SIZE * t → connInv rs.client →
      connInv (readAddressLoop net a n i acc rs).2.client := by
  intro t
  induction t with
  | zero =>
    intro i acc rs hle hinv
    rw [readAddressLoop, dif_neg (by omega)]
    exact hinv
  | succ t ih =>
    intro i acc rs hle hinv
    by_cases hi : i < n
    · rw [readAddressLoop, dif_pos hi]
      simp only [make_read_zero_none]
      cases hro : requestOperations net rs [a + i]
        [⟨128, min (n - i) CHUNK_SIZE, none, none⟩] with
      | mk r rs1 =>
        have hinv1 : connInv rs1.client := by
          have := reqOps_connInv net rs [a + i]
            [⟨128, min (n - i) CHUNK_SIZE, none, none⟩] hinv
          rw [hro] at this
          exact this
        cases r with
        | error e => exact hinv1
        | ok results =>
          dsimp only
          cases hh : results.head? with
          | none => exact hinv1
          | some ro =>
            cases ro with
            | none => exact hinv1
            | some chunk =>
              exact ih (i + CHUNK_SIZE) (acc ++ [chunk]) rs1
                (by rw [CHUNK_SIZE] at hle ⊢; omega) hinv1
    · rw [readAddressLoop, dif_neg hi]
      exact hinv

theorem writePointerLoop_connInv (net : Nat → NetResult) (p : Nat) (off : Int)
    (data : List Nat) :
    ∀ t i rs, data.length ≤ i + CHUNK_SIZE * t → connInv rs.client →
      connInv (writePointerLoop net p off data i rs).2.client := by
  intro t
  induction t with
  | zero =>
    intro i rs hle hinv
    rw [writePointerLoop, dif_neg (by omega)]
    exact hinv
  | succ t ih =>
    intro i rs hle hinv
    by_cases hi : i < data.length
    · rw [writePointerLoop, dif_pos hi]
      simp only [make_write_zero]
      cases hro : requestOperations net rs [p]
        [⟨80, ((data.drop i).take CHUNK_SIZE).length, some (off + (i : Int)),
          some ((data.drop i).take CHUNK_SIZE)⟩] with
      | mk r rs1 =>
        have hinv1 : connInv rs1.client := by
          have := reqOps_connInv net rs [p]
            [⟨80, ((data.drop i).take CHUNK_SIZE).length, some (off + (i : Int)),
              some ((data.drop i).take CHUNK_SIZE)⟩] hinv
          rw [hro] at this
          exact this
        cases r with
        | error e => exact hinv1
        | ok results =>
          exact ih (i + CHUNK_SIZE) rs1 (by rw [CHUNK_SIZE] at hle ⊢; omega) hinv1
    · rw [writePointerLoop, dif_neg hi]
      exact hinv

theorem writeAddressLoop_connInv (net : Nat → NetResult) (a : Nat) (data : List Nat) :
    ∀ t i rs, data.length ≤ i + CHUNK_SIZE * t → connInv rs.client →
      connInv (writeAddressLoop net a data i rs).2.client := by
  intro t
  induction t with
  | zero =>
    intro i rs hle hinv
    rw [writeAddressLoop, dif_neg (by omega)]
    exact hinv
  | succ t ih =>
    intro i rs hle hinv
    by_cases hi : i < data.length
    · rw [writeAddressLoop, dif_pos hi]
      simp only [make_write_zero_none]
      cases hro : requestOperations net rs [a + i]
        [⟨64, ((data.drop i).take CHUNK_SIZE).length, none,
          some ((data.drop i).take CHUNK_SIZE)⟩] with
      | mk r rs1 =>
        have hinv1 : connInv rs1.client := by
          have := reqOps_connInv net rs [a + i]
            [⟨64, ((data.drop i).take CHUNK_SIZE).length, none,
              some ((data.drop i).take CHUNK_SIZE)⟩] hinv
          rw [hro] at this
          exact this
        cases r with
        | error e => exact hinv1
        | ok results =>
          exact ih (i + CHUNK_SIZE) rs1 (by rw [CHUNK_SIZE] at hle ⊢; omega) hinv1
    · rw [writeAddressLoop, dif_neg hi]
      exact hinv

theorem connect_connInv (net : Nat → NetResult) (openOk : Bool) (rs : RunState)
    (h : connInv rs.client) :
    connInv (NintendontClient.connect net openOk rs).2.client := by
  unfold NintendontClient.connect
  cases haddr : rs.client.address with
  | none => exact h
  | some addr =>
    simp only
    cases openOk with
    | false =>
      rw [if_neg (by simp)]
      exact h
    | true =>
      rw [if_pos rfl]
      rw [haddr]
      cases hmr : makeRequest net
        ⟨⟨some addr, some (), rs.client.meta_info⟩, rs.reqIdx, rs.sent, rs.requests⟩
        [REQUEST_VERSION, 0, 0, 1] with
      | mk r rs2 =>
        have hcl := makeRequest_client net
          ⟨⟨some addr, some (), rs.client.meta_info⟩, rs.reqIdx, rs.sent, rs.requests⟩
          [REQUEST_VERSION, 0, 0, 1]
        rw [hmr] at hcl
        dsimp only at hcl
        cases r with
        | error e =>
          dsimp only
          rcases hcl with h1 | h1
          · rw [h1]
            exact disconnect_some_connInv _ rfl
          · rw [h1, disconnect_idem]
            exact disconnect_some_connInv _ rfl
        | ok result =>
          dsimp only
          cases hu : unpackIIII result with
          | none =>
            rcases hcl with h1 | h1
            · rw [h1]
              exact disconnect_some_connInv _ rfl
            · rw [h1, disconnect_idem]
              exact disconnect_some_connInv _ rfl
          | some q =>
            obtain ⟨v, mi, mo, ma⟩ := q
            obtain ⟨hst, -⟩ := makeRequest_ok_state net
              ⟨⟨some addr, some (), rs.client.meta_info⟩, rs.reqIdx, rs.sent, rs.requests⟩
              [REQUEST_VERSION, 0, 0, 1] result rs2 hmr
            subst hst
            exact rfl

theorem read_pointer_connInv (net : Nat → NetResult) (rs : RunState)
    (p : Nat) (off : Int) (n : Nat) (h : connInv rs.client) :
    connInv (NintendontClient.read_pointer net rs p off n).2.client := by
  unfold NintendontClient.read_pointer
  by_cases hn : n = 0
  · rw [if_pos hn]
    simp only [make_read_zero]
    cases hro : requestOperations net rs [p] [⟨144, 0, some off, none⟩] with
    | mk r rs1 =>
      have hinv1 : connInv rs1.client := by
        have := reqOps_connInv net rs [p] [⟨144, 0, some off, none⟩] h
        rw [hro] at this
        exact this
      cases r with
      | error e => exact hinv1
      | ok results =>
        dsimp only
        cases hh : results.head? with
        | none => exact hinv1
        | some ro => exact hinv1
  · rw [if_neg hn]
    exact readPointerLoop_connInv net p off n n 0 [] rs (by rw [CHUNK_SIZE]; omega) h

theorem read_address_connInv (net : Nat → NetResult) (rs : RunState)
    (a : Nat) (n : Nat) (h : connInv rs.client) :
    connInv (NintendontClient.read_address net rs a n).2.client := by
  unfold NintendontClient.read_address
  by_cases hn : n = 0
  · rw [if_pos hn]
    simp only [make_read_zero_none]
    cases hro : requestOperations net rs [a] [⟨128, 0, none, none⟩] with
    | mk r rs1 =>
      have hinv1 : connInv rs1.client := by
        have := reqOps_connInv net rs [a] [⟨128, 0, none, none⟩] h
        rw [hro] at this
        exact this
      cases r with
      | error e => exact hinv1
      | ok results =>
        dsimp only
        cases hh : results.head? with
        | none => exact hinv1
        | some ro =>
          cases ro with
          | none => exact hinv1
          | some chunk => exact hinv1
  · rw [if_neg hn]
    exact readAddressLoop_connInv net a n n 0 [] rs (by rw [CHUNK_SIZE]; omega) h

theorem write_pointer_connInv (net : Nat → NetResult) (rs : RunState)
    (p : Nat) (off : Int) (d : List Nat) (h : connInv rs.client) :
    connInv (NintendontClient.write_pointer net rs p off d).2.client := by
  unfold NintendontClient.write_pointer
  by_cases hd : d = []
  · rw [if_pos hd]
    simp only [make_write_zero]
    cases hro : requestOperations net rs [p] [⟨80, ([] : List Nat).length, some off, some []⟩] with
    | mk r rs1 =>
      have hinv1 : connInv rs1.client := by
        have := reqOps_connInv net rs [p] [⟨80, ([] : List Nat).length, some off, some []⟩] h
        rw [hro] at this
        exact this
      cases r with
      | error e => exact hinv1
      | ok results => exact hinv1
  · rw [if_neg hd]
    exact writePointerLoop_connInv net p off d d.length 0 rs (by rw [CHUNK_SIZE]; omega) h

theorem write_address_connInv (net : Nat → NetResult) (rs : RunState)
    (a : Nat) (d : List Nat) (h : connInv rs.client) :
    connInv (NintendontClient.write_address net rs a d).2.client := by
  unfold NintendontClient.write_address
  by_cases hd : d = []
  · rw [if_pos hd]
    simp only [make_write_zero_none]
    cases hro : requestOperations net rs [a] [⟨64, ([] : List Nat).length, none, some []⟩] with
    | mk r rs1 =>
      have hinv1 : connInv rs1.client := by
        have := reqOps_connInv net rs [a] [⟨64, ([] : List Nat).length, none, some []⟩] h
        rw [hro] at this
        exact this
      cases r with
      | error e => exact hinv1
      | ok results => exact hinv1
  · rw [if_neg hd]
    exact writeAddressLoop_connInv net a d d.length 0 rs (by rw [CHUNK_SIZE]; omega) h

theorem set_address_connInv (c : ClientState) (na : Option String) (h : connInv c) :
    connInv (NintendontClient.set_address c na) := by
  unfold NintendontClient.set_address
  split
  · exact disconnect_connInv c h
  · exact h

/-- Claim C6: the invariant "session non-null iff negotiated limits
non-null" holds after construction and is preserved by every public
operation — set_address, connect, disconnect, read_address, read_pointer,
write_address, write_pointer — on all paths including failures; and under
the invariant, is_connected returns true exactly when both a session and
limits exist. -/
theorem claim_C6 :
    connInv NintendontClient.init ∧
    (∀ (c : ClientState) (na : Option String), connInv c →
      connInv (NintendontClient.set_address c na)) ∧
    (∀ (net : Nat → NetResult) (openOk : Bool) (rs : RunState), connInv rs.client →
      connInv (NintendontClient.connect net openOk rs).2.client) ∧
    (∀ c : ClientState, connInv c → connInv (NintendontClient.disconnect c)) ∧
    (∀ (net : Nat → NetResult) (rs : RunState) (a n : Nat), connInv rs.client →
      connInv (NintendontClient.read_address net rs a n).2.client) ∧
    (∀ (net : Nat → NetResult) (rs : RunState) (p : Nat) (off : Int) (n : Nat),
      connInv rs.client →
      connInv (NintendontClient.read_pointer net rs p off n).2.client) ∧
    (∀ (net : Nat → NetResult) (rs : RunState) (a : Nat) (d : List Nat), connInv rs.client →
      connInv (NintendontClient.write_address net rs a d).2.client) ∧
    (∀ (net : Nat → NetResult) (rs : RunState) (p : Nat) (off : Int) (d : List Nat),
      connInv rs.client →
      connInv (NintendontClient.write_pointer net rs p off d).2.client) ∧
    (∀ c : ClientState, connInv c →
      NintendontClient.is_connected c = (c.streams.isSome && c.meta_info.isSome)) := by
  refine ⟨rfl, ?_, ?_, ?_, ?_, ?_, ?_, ?_, ?_⟩
  · intro c na h
    exact set_address_connInv c na h
  · intro net openOk rs h
    exact connect_connInv net openOk rs h
  · intro c h
    exact disconnect_connInv c h
  · intro net rs a n h
    exact read_address_connInv net rs a n h
  · intro net rs p off n h
    exact read_pointer_connInv net rs p off n h
  · intro net rs a d h
    exact write_address_connInv net rs a d h
  · intro net rs p off d h
    exact write_pointer_connInv net rs p off d h
  · intro c h
    unfold NintendontClient.is_connected
    unfold connInv at h
    rw [h, Bool.and_self]

/-- Witness for claim C6 at a concrete connected state. -/
theorem claim_C6_witness :
    connInv (NintendontClient.disconnect ⟨some "wii", some (), some stdMeta⟩) ∧
    NintendontClient.is_connected ⟨some "wii", some (), some stdMeta⟩ =
      ((some () : Option Unit).isSome && (some stdMeta : Option NintendontMetaInfo).isSome) :=
  ⟨claim_C6.2.2.2.1 ⟨some "wii", some (), some stdMeta⟩ rfl,
    claim_C6.2.2.2.2.2.2.2.2 ⟨some "wii", some (), some stdMeta⟩ rfl⟩

/-! Chunk-trace lemma for write_pointer (claim C4). -/

theorem writePointerLoop_chunks (net : Nat → NetResult) (p : Nat) (off : Int)
    (data : List Nat) :
    ∀ t i rs, connectedStd rs.client → p < 4294967296 →
      data.length ≤ i + CHUNK_SIZE * t →
      (∀ j, i + CHUNK_SIZE * j < data.length →
        0 ≤ off + ((i + CHUNK_SIZE * j : Nat) : Int) ∧
        off + ((i + CHUNK_SIZE * j : Nat) : Int) ≤ 65535) →
      (∀ j, i + CHUNK_SIZE * j < data.length →
        ∃ raw, net (rs.reqIdx + j) = .ok raw ∧ raw.take 1024 ≠ []) →
      ∃ rsF, writePointerLoop net p off data i rs = (.ok (), rsF) ∧
        rsF.client = rs.client ∧
        rsF.requests = rs.requests ++ writeChunks p off data i ∧
        rsF.sent.length = rs.sent.length + (writeChunks p off data i).length := by
  intro t
  induction t with
  | zero =>
    intro i rs hc hp hle hoff hnet
    rw [writePointerLoop, dif_neg (by omega)]
    rw [writeChunks, dif_neg (by omega)]
    exact ⟨rs, rfl, rfl, by simp, by simp⟩
  | succ t ih =>
    intro i rs hc hp hle hoff hnet
    by_cases hi : i < data.length
    · have hof := hoff 0 (by simpa using hi)
      simp only [Nat.mul_zero, Nat.add_zero] at hof
      obtain ⟨raw0, hnet0, hne0⟩ := hnet 0 (by simpa using hi)
      simp only [Nat.add_zero] at hnet0
      obtain ⟨v, fr, heq⟩ := req_write_ptr net rs p ((data.drop i).take CHUNK_SIZE)
        (off + (i : Int)) raw0 hc hp
        (by simp only [List.length_take, List.length_drop, CHUNK_SIZE]; omega)
        (by simp only [List.length_take, List.length_drop, CHUNK_SIZE]; omega)
        hof.1 hof.2 hnet0 hne0
      rw [writePointerLoop, dif_pos hi]
      simp only [make_write_zero]
      rw [heq]
      obtain ⟨rsF, hloop, hcl, hreqs, hsent⟩ := ih (i + CHUNK_SIZE)
        ⟨rs.client, rs.reqIdx + 1, rs.sent ++ [fr],
          rs.requests ++ [([p], [⟨80, ((data.drop i).take CHUNK_SIZE).length,
            some (off + (i : Int)), some ((data.drop i).take CHUNK_SIZE)⟩])]⟩
        hc hp (by rw [CHUNK_SIZE] at hle ⊢; omega)
        (by
          intro j hj
          have hnat : i + CHUNK_SIZE * (j + 1) = i + CHUNK_SIZE + CHUNK_SIZE * j := by ring
          have h2 := hoff (j + 1) (by rw [hnat]; exact hj)
          rw [hnat] at h2
          exact h2)
        (by
          intro j hj
          have hnat : i + CHUNK_SIZE * (j + 1) = i + CHUNK_SIZE + CHUNK_SIZE * j := by ring
          have h2 := hnet (j + 1) (by rw [hnat]; exact hj)
          have hidx : rs.reqIdx + (j + 1) = rs.reqIdx + 1 + j := by omega
          rw [hidx] at h2
          exact h2)
      have hwc : writeChunks p off data i =
          ([p], [(⟨80, ((data.drop i).take CHUNK_SIZE).length, some (off + (i : Int)),
            some ((data.drop i).take CHUNK_SIZE)⟩ : NintendontOperation)]) ::
            writeChunks p off data (i + CHUNK_SIZE) := by
        rw [writeChunks, dif_pos hi]
        rfl
      refine ⟨rsF, hloop, hcl, ?_, ?_⟩
      · rw [hreqs, hwc]
        simp
      · rw [hsent, hwc]
        simp only [List.length_append, List.length_cons, List.length_nil]
        omega
    · rw [writePointerLoop, dif_neg hi]
      rw [writeChunks, dif_neg hi]
      exact ⟨rs, rfl, rfl, by simp, by simp⟩

/-- Claim C4: the fixed 80-byte chunk size bounds every write operation:
write_pointer splits its data into consecutive CHUNK_SIZE slices, one
single-operation round trip each, with indirect offsets offset + 80k and
sizes min(remaining, 80).  The final conjunct instantiates the scenario:
200 bytes at offset 4 become exactly 3 chunked writes with offsets
4, 84, 164 and sizes 80, 80, 40. -/
theorem claim_C4 :
    CHUNK_SIZE = 80 ∧
    (∀ (net : Nat → NetResult) (rs : RunState) (p : Nat) (off : Int) (data : List Nat),
      connectedStd rs.client → p < 4294967296 → data ≠ [] →
      (∀ j, CHUNK_SIZE * j < data.length →
        0 ≤ off + ((CHUNK_SIZE * j : Nat) : Int) ∧
        off + ((CHUNK_SIZE * j : Nat) : Int) ≤ 65535) →
      (∀ j, CHUNK_SIZE * j < data.length →
        ∃ raw, net (rs.reqIdx + j) = .ok raw ∧ raw.take 1024 ≠ []) →
      ∃ rsF, NintendontClient.write_pointer net rs p off data = (.ok (), rsF) ∧
        rsF.requests = rs.requests ++ writeChunks p off data 0 ∧
        rsF.sent.length = rs.sent.length + (writeChunks p off data 0).length) ∧
    (writeChunks 2147483648 4 (List.replicate 200 7) 0 =
      [([2147483648], [⟨80, 80, some 4, some (List.replicate 80 7)⟩]),
       ([2147483648], [⟨80, 80, some 84, some (List.replicate 80 7)⟩]),
       ([2147483648], [⟨80, 40, some 164, some (List.replicate 40 7)⟩])]) := by
  refine ⟨rfl, ?_, ?_⟩
  · intro net rs p off data hc hp hne hoff hnet
    obtain ⟨rsF, hloop, hcl, hreqs, hsent⟩ :=
      writePointerLoop_chunks net p off data data.length 0 rs hc hp
        (by rw [CHUNK_SIZE]; omega)
        (by intro j hj; simpa using hoff j (by simpa using hj))
        (by intro j hj; simpa using hnet j (by simpa using hj))
    refine ⟨rsF, ?_, hreqs, hsent⟩
    unfold NintendontClient.write_pointer
    rw [if_neg hne]
    exact hloop
  · have h80 : HAS_WRITE ||| HAS_OFFSET = 80 := by decide
    rw [writeChunks, dif_pos (by simp [CHUNK_SIZE])]
    rw [writeChunks, dif_pos (by simp [CHUNK_SIZE])]
    rw [writeChunks, dif_pos (by simp [CHUNK_SIZE])]
    rw [writeChunks, dif_neg (by simp [CHUNK_SIZE])]
    norm_num [List.drop_replicate, List.take_replicate, h80, CHUNK_SIZE]

/-- Witness for claim C4: a 200-byte write_pointer at offset 4 against an
always-successful peer completes and issues exactly the writeChunks trace. -/
theorem claim_C4_witness :
    ∃ rsF, NintendontClient.write_pointer (fun _ => NetResult.ok [1])
      ⟨⟨none, some (), some stdMeta⟩, 0, [], []⟩ 2147483648 4 (List.replicate 200 7) =
        (.ok (), rsF) ∧
      rsF.requests = ([] : List (List Nat × List NintendontOperation)) ++
        writeChunks 2147483648 4 (List.replicate 200 7) 0 ∧
      rsF.sent.length = ([] : List (List Nat)).length +
        (writeChunks 2147483648 4 (List.replicate 200 7) 0).length :=
  claim_C4.2.1 (fun _ => NetResult.ok [1]) ⟨⟨none, some (), some stdMeta⟩, 0, [], []⟩
    2147483648 4 (List.replicate 200 7) ⟨rfl, rfl⟩ (by decide) (by simp)
    (by
      intro j hj
      simp only [CHUNK_SIZE, List.length_replicate] at hj ⊢
      constructor <;> omega)
    (by
      intro j hj
      exact ⟨[1], rfl, by decide⟩)

/-! Well-formedness of every frame issued through the public interface
(claim C9). -/

theorem goodRequest_read_some (p s : Nat) (o : Int) (hs : s ≤ CHUNK_SIZE) :
    goodRequest ([p], [⟨144, s, some o, none⟩]) := by
  have hs' : s ≤ 255 := by rw [CHUNK_SIZE] at hs; omega
  refine ⟨rfl, rfl, ?_⟩
  intro op hop
  simp only [List.mem_singleton] at hop
  subst hop
  refine ⟨show (144 : Nat) &&& ADDRESS_INDEX_MASK = 0 by decide, hs, ?_, ?_⟩
  · intro h
    simp at h
  · intro o' ho' h0 h65
    simp only [Option.some_inj] at ho'
    subst ho'
    simp [NintendontOperation.to_bytes, pack8, pack16, hs', h0, h65]

theorem goodRequest_read_none (p s : Nat) (hs : s ≤ CHUNK_SIZE) :
    goodRequest ([p], [⟨128, s, none, none⟩]) := by
  have hs' : s ≤ 255 := by rw [CHUNK_SIZE] at hs; omega
  refine ⟨rfl, rfl, ?_⟩
  intro op hop
  simp only [List.mem_singleton] at hop
  subst hop
  refine ⟨show (128 : Nat) &&& ADDRESS_INDEX_MASK = 0 by decide, hs, ?_, ?_⟩
  · intro h
    simp [NintendontOperation.to_bytes, pack8, hs']
  · intro o' ho' h0 h65
    simp at ho'

theorem goodRequest_write_some (p : Nat) (d : List Nat) (o : Int)
    (hd : d.length ≤ CHUNK_SIZE) :
    goodRequest ([p], [⟨80, d.length, some o, some d⟩]) := by
  have hs' : d.length ≤ 255 := by rw [CHUNK_SIZE] at hd; omega
  refine ⟨rfl, rfl, ?_⟩
  intro op hop
  simp only [List.mem_singleton] at hop
  subst hop
  refine ⟨show (80 : Nat) &&& ADDRESS_INDEX_MASK = 0 by decide, hd, ?_, ?_⟩
  · intro h
    simp at h
  · intro o' ho' h0 h65
    simp only [Option.some_inj] at ho'
    subst ho'
    simp [NintendontOperation.to_bytes, pack8, pack16, hs', h0, h65]

theorem goodRequest_write_none (p : Nat) (d : List Nat) (hd : d.length ≤ CHUNK_SIZE) :
    goodRequest ([p], [⟨64, d.length, none, some d⟩]) := by
  have hs' : d.length ≤ 255 := by rw [CHUNK_SIZE] at hd; omega
  refine ⟨rfl, rfl, ?_⟩
  intro op hop
  simp only [List.mem_singleton] at hop
  subst hop
  refine ⟨show (64 : Nat) &&& ADDRESS_INDEX_MASK = 0 by decide, hd, ?_, ?_⟩
  · intro h
    simp [NintendontOperation.to_bytes, pack8, hs']
  · intro o' ho' h0 h65
    simp at ho'

theorem goodRequests_after (net : Nat → NetResult) (rs rs1 : RunState)
    (addresses : List Nat) (ops : List NintendontOperation)
    (r : Except GCError (List (Option (List Nat))))
    (hro : requestOperations net rs addresses ops = (r, rs1))
    (hgoods : ∀ q ∈ rs.requests, goodRequest q)
    (hnew : goodRequest (addresses, ops)) :
    ∀ q ∈ rs1.requests, goodRequest q := by
  have hr1 : rs1.requests = rs.requests ++ [(addresses, ops)] := by
    have := reqOps_requests net rs addresses ops
    rw [hro] at this
    exact this
  rw [hr1]
  intro q hq
  rcases List.mem_append.mp hq with h | h
  · exact hgoods q h
  · simp only [List.mem_singleton] at h
    subst h
    exact hnew

theorem readPointerLoop_good (net : Nat → NetResult) (p : Nat) (off : Int) (n : Nat) :
    ∀ t i acc rs, n ≤ i + CHUNK_SIZE * t →
      (∀ q ∈ rs.requests, goodRequest q) →
      ∀ q ∈ (readPointerLoop net p off n i acc rs).2.requests, goodRequest q := by
  intro t
  induction t with
  | zero =>
    intro i acc rs hle hg
    rw [readPointerLoop, dif_neg (by omega)]
    exact hg
  | succ t ih =>
    intro i acc rs hle hg
    by_cases hi : i < n
    · rw [readPointerLoop, dif_pos hi]
      simp only [make_read_zero]
      cases hro : requestOperations net rs [p]
        [⟨144, min (n - i) CHUNK_SIZE, some (off + (i : Int)), none⟩] with
      | mk r rs1 =>
        have hg1 := goodRequests_after net rs rs1 [p]
          [⟨144, min (n - i) CHUNK_SIZE, some (off + (i : Int)), none⟩] r hro hg
          (goodRequest_read_some p _ _ (Nat.min_le_right _ _))
        cases r with
        | error e => exact hg1
        | ok results =>
          dsimp only
          cases hh : results.head? with
          | none => exact hg1
          | some ro =>
            cases ro with
            | none => exact hg1
            | some chunk =>
              exact ih (i + CHUNK_SIZE) (acc ++ [chunk]) rs1
                (by rw [CHUNK_SIZE] at hle ⊢; omega) hg1
    · rw [readPointerLoop, dif_neg hi]
      exact hg

theorem readAddressLoop_good (net : Nat → NetResult) (a : Nat) (n : Nat) :
    ∀ t i acc rs, n ≤ i + CHUNK_SIZE * t →
      (∀ q ∈ rs.requests, goodRequest q) →
      ∀ q ∈ (readAddressLoop net a n i acc rs).2.requests, goodRequest q := by
  intro t
  induction t with
  | zero =>
    intro i acc rs hle hg
    rw [readAddressLoop, dif_neg (by omega)]
    exact hg
  | succ t ih =>
    intro i acc rs hle hg
    by_cases hi : i < n
    · rw [readAddressLoop, dif_pos hi]
      simp only [make_read_zero_none]
      cases hro : requestOperations net rs [a + i]
        [⟨128, min (n - i) CHUNK_SIZE, none, none⟩] with
      | mk r rs1 =>
        have hg1 := goodRequests_after net rs rs1 [a + i]
          [⟨128, min (n - i) CHUNK_SIZE, none, none⟩] r hro hg
          (goodRequest_read_none (a + i) _ (Nat.min_le_right _ _))
        cases r with
        | error e => exact hg1
        | ok results =>
          dsimp only
          cases hh : results.head? with
          | none => exact hg1
          | some ro =>
            cases ro with
            | none => exact hg1
            | some chunk =>
              exact ih (i + CHUNK_SIZE) (acc ++ [chunk]) rs1
                (by rw [CHUNK_SIZE] at hle ⊢; omega) hg1
    · rw [readAddressLoop, dif_neg hi]
      exact hg

theorem writePointerLoop_good (net : Nat → NetResult) (p : Nat) (off : Int)
    (data : List Nat) :
    ∀ t i rs, data.length ≤ i + CHUNK_SIZE * t →
      (∀ q ∈ rs.requests, goodRequest q) →
      ∀ q ∈ (writePointerLoop net p off data i rs).2.requests, goodRequest q := by
  intro t
  induction t with
  | zero =>
    intro i rs hle hg
    rw [writePointerLoop, dif_neg (by omega)]
    exact hg
  | succ t ih =>
    intro i rs hle hg
    by_cases hi : i < data.length
    · rw [writePointerLoop, dif_pos hi]
      simp only [make_write_zero]
      cases hro : requestOperations net rs [p]
        [⟨80, ((data.drop i).take CHUNK_SIZE).length, some (off + (i : Int)),
          some ((data.drop i).take CHUNK_SIZE)⟩] with
      | mk r rs1 =>
        have hg1 := goodRequests_after net rs rs1 [p]
          [⟨80, ((data.drop i).take CHUNK_SIZE).length, some (off + (i : Int)),
            some ((data.drop i).take CHUNK_SIZE)⟩] r hro hg
          (goodRequest_write_some p _ _
            (by simp only [List.length_take]; exact Nat.min_le_left _ _))
        cases r with
        | error e => exact hg1
        | ok results =>
          exact ih (i + CHUNK_SIZE) rs1 (by rw [CHUNK_SIZE] at hle ⊢; omega) hg1
    · rw [writePointerLoop, dif_neg hi]
      exact hg

theorem writeAddressLoop_good (net : Nat → NetResult) (a : Nat) (data : List Nat) :
    ∀ t i rs, data.length ≤ i + CHUNK_SIZE * t →
      (∀ q ∈ rs.requests, goodRequest q) →
      ∀ q ∈ (writeAddressLoop net a data i rs).2.requests, goodRequest q := by
  intro t
  induction t with
  | zero =>
    intro i rs hle hg
    rw [writeAddressLoop, dif_neg (by omega)]
    exact hg
  | succ t ih =>
    intro i rs hle hg
    by_cases hi : i < data.length
    · rw [writeAddressLoop, dif_pos hi]
      simp only [make_write_zero_none]
      cases hro : requestOperations net rs [a + i]
        [⟨64, ((data.drop i).take CHUNK_SIZE).length, none,
          some ((data.drop i).take CHUNK_SIZE)⟩] with
      | mk r rs1 =>
        have hg1 := goodRequests_after net rs rs1 [a + i]
          [⟨64, ((data.drop i).take CHUNK_SIZE).length, none,
            some ((data.drop i).take CHUNK_SIZE)⟩] r hro hg
          (goodRequest_write_none (a + i) _
            (by simp only [List.length_take]; exact Nat.min_le_left _ _))
        cases r with
        | error e => exact hg1
        | ok results =>
          exact ih (i + CHUNK_SIZE) rs1 (by rw [CHUNK_SIZE] at hle ⊢; omega) hg1
    · rw [writeAddressLoop, dif_neg hi]
      exact hg

theorem read_pointer_good (net : Nat → NetResult) (rs : RunState)
    (p : Nat) (off : Int) (n : Nat) (hg : ∀ q ∈ rs.requests, goodRequest q) :
    ∀ q ∈ (NintendontClient.read_pointer net rs p off n).2.requests, goodRequest q := by
  unfold NintendontClient.read_pointer
  by_cases hn : n = 0
  · rw [if_pos hn]
    simp only [make_read_zero]
    cases hro : requestOperations net rs [p] [⟨144, 0, some off, none⟩] with
    | mk r rs1 =>
      have hg1 := goodRequests_after net rs rs1 [p] [⟨144, 0, some off, none⟩] r hro hg
        (goodRequest_read_some p 0 off (by rw [CHUNK_SIZE]; omega))
      cases r with
      | error e => exact hg1
      | ok results =>
        dsimp only
        cases hh : results.head? with
        | none => exact hg1
        | some ro => exact hg1
  · rw [if_neg hn]
    exact readPointerLoop_good net p off n n 0 [] rs (by rw [CHUNK_SIZE]; omega) hg

theorem read_address_good (net : Nat → NetResult) (rs : RunState)
    (a : Nat) (n : Nat) (hg : ∀ q ∈ rs.requests, goodRequest q) :
    ∀ q ∈ (NintendontClient.read_address net rs a n).2.requests, goodRequest q := by
  unfold NintendontClient.read_address
  by_cases hn : n = 0
  · rw [if_pos hn]
    simp only [make_read_zero_none]
    cases hro : requestOperations net rs [a] [⟨128, 0, none, none⟩] with
    | mk r rs1 =>
      have hg1 := goodRequests_after net rs rs1 [a] [⟨128, 0, none, none⟩] r hro hg
        (goodRequest_read_none a 0 (by rw [CHUNK_SIZE]; omega))
      cases r with
      | error e => exact hg1
      | ok results =>
        dsimp only
        cases hh : results.head? with
        | none => exact hg1
        | some ro =>
          cases ro with
          | none => exact hg1
          | some chunk => exact hg1
  · rw [if_neg hn]
    exact readAddressLoop_good net a n n 0 [] rs (by rw [CHUNK_SIZE]; omega) hg

theorem write_pointer_good (net : Nat → NetResult) (rs : RunState)
    (p : Nat) (off : Int) (d : List Nat) (hg : ∀ q ∈ rs.requests, goodRequest q) :
    ∀ q ∈ (NintendontClient.write_pointer net rs p off d).2.requests, goodRequest q := by
  unfold NintendontClient.write_pointer
  by_cases hd : d = []
  · rw [if_pos hd]
    simp only [make_write_zero]
    cases hro : requestOperations net rs [p] [⟨80, ([] : List Nat).length, some off, some []⟩] with
    | mk r rs1 =>
      have hg1 := goodRequests_after net rs rs1 [p]
        [⟨80, ([] : List Nat).length, some off, some []⟩] r hro hg
        (goodRequest_write_some p [] off (by rw [CHUNK_SIZE]; simp))
      cases r with
      | error e => exact hg1
      | ok results => exact hg1
  · rw [if_neg hd]
    exact writePointerLoop_good net p off d d.length 0 rs (by rw [CHUNK_SIZE]; omega) hg

theorem write_address_good (net : Nat → NetResult) (rs : RunState)
    (a : Nat) (d : List Nat) (hg : ∀ q ∈ rs.requests, goodRequest q) :
    ∀ q ∈ (NintendontClient.write_address net rs a d).2.requests, goodRequest q := by
  unfold NintendontClient.write_address
  by_cases hd : d = []
  · rw [if_pos hd]
    simp only [make_write_zero_none]
    cases hro : requestOperations net rs [a] [⟨64, ([] : List Nat).length, none, some []⟩] with
    | mk r rs1 =>
      have hg1 := goodRequests_after net rs rs1 [a]
        [⟨64, ([] : List Nat).length, none, some []⟩] r hro hg
        (goodRequest_write_none a [] (by rw [CHUNK_SIZE]; simp))
      cases r with
      | error e => exact hg1
      | ok results => exact hg1
  · rw [if_neg hd]
    exact writeAddressLoop_good net a d d.length 0 rs (by rw [CHUNK_SIZE]; omega) hg

/-- Counterexample to claim C9 as stated: operation serialization CAN fail
through the public interface — read_pointer with indirect offset 70000
(beyond the 16-bit offset field) builds a request whose operation fails to
serialize (struct.error), so the call raises instead of never failing. -/
theorem claim_C9_counterexample :
    (NintendontClient.read_pointer (fun _ => NetResult.ok [1])
      ⟨⟨none, some (), some stdMeta⟩, 0, [], []⟩ 2147483648 70000 4).1 =
      .error .structError ∧
    (NintendontClient.read_pointer (fun _ => NetResult.ok [1])
      ⟨⟨none, some (), some stdMeta⟩, 0, [], []⟩ 2147483648 70000 4).2.requests =
      [([2147483648], [⟨144, 4, some 70000, none⟩])] ∧
    (NintendontOperation.mk 144 4 (some 70000) none).to_bytes = none := by
  refine ⟨?_, ?_, by decide⟩
  · unfold NintendontClient.read_pointer
    rw [if_neg (by decide)]
    rw [readPointerLoop, dif_pos (by decide)]
    decide
  · unfold NintendontClient.read_pointer
    rw [if_neg (by decide)]
    rw [readPointerLoop, dif_pos (by decide)]
    decide

/-- Claim C9 as amended: every request frame built by the public read/write
operations contains exactly one address-table entry and exactly one
operation, that operation's address-table index is 0, its size is at most
the 80-byte chunk size (so the one-byte size field and the 4-bit index
never overflow), and its serialization succeeds whenever its indirect
offset — when present — fits in 16 bits (offsets outside 0..65535 make
serialization fail, which the public interface does not prevent). -/
theorem claim_C9 :
    (∀ (net : Nat → NetResult) (rs : RunState) (p : Nat) (off : Int) (n : Nat),
      (∀ q ∈ rs.requests, goodRequest q) →
      ∀ q ∈ (NintendontClient.read_pointer net rs p off n).2.requests, goodRequest q) ∧
    (∀ (net : Nat → NetResult) (rs : RunState) (a n : Nat),
      (∀ q ∈ rs.requests, goodRequest q) →
      ∀ q ∈ (NintendontClient.read_address net rs a n).2.requests, goodRequest q) ∧
    (∀ (net : Nat → NetResult) (rs : RunState) (p : Nat) (off : Int) (d : List Nat),
      (∀ q ∈ rs.requests, goodRequest q) →
      ∀ q ∈ (NintendontClient.write_pointer net rs p off d).2.requests, goodRequest q) ∧
    (∀ (net : Nat → NetResult) (rs : RunState) (a : Nat) (d : List Nat),
      (∀ q ∈ rs.requests, goodRequest q) →
      ∀ q ∈ (NintendontClient.write_address net rs a d).2.requests, goodRequest q) :=
  ⟨fun net rs p off n hg => read_pointer_good net rs p off n hg,
    fun net rs a n hg => read_address_good net rs a n hg,
    fun net rs p off d hg => write_pointer_good net rs p off d hg,
    fun net rs a d hg => write_address_good net rs a d hg⟩

/-- Witness for claim C9 at a concrete 100-byte read_pointer call. -/
theorem claim_C9_witness :
    (∀ q ∈ (⟨⟨none, some (), some stdMeta⟩, 0, [], []⟩ : RunState).requests, goodRequest q) ∧
    ∀ q ∈ (NintendontClient.read_pointer (fun _ => NetResult.ok [0])
      ⟨⟨none, some (), some stdMeta⟩, 0, [], []⟩ 2147483648 4 100).2.requests, goodRequest q :=
  ⟨by simp, claim_C9.1 (fun _ => NetResult.ok [0])
    ⟨⟨none, some (), some stdMeta⟩, 0, [], []⟩ 2147483648 4 100 (by simp)⟩
